import Mathlib

/-!
# clang-move: a shallow embedding of `clang-move/ClangMove.cpp`

The development models the declaration-relocation engine of clang-move:
the namespace-aware emitter (`createInsertedReplacements`), the synthesis of
deletion edits (`removeDeclsInOldFiles`), the whole-file move (`moveAll`) and
the end-of-translation-unit dispatch (`onEndOfTranslationUnit`).

Conventions.
* A `std::string` is a Lean `String`; one `Char` stands for one `char`.
* A source location is a file name together with an offset into that file's
  buffer; offsets and lengths are natural numbers.
* The AST, the source manager, the lexer, the path utilities and the tooling
  `Replacement(s)` classes belong to clang/LLVM.  What the program reads from
  them is carried by the records below or modelled next to the place of use.
-/

set_option maxRecDepth 20000

namespace ClangMove

/-! ## Declarations and the source manager -/

/-- The `Decl::Kind` values the program distinguishes, and the remaining ones
it only passes through. -/
inductive Kind where
  | Function
  | FunctionTemplate
  | ClassTemplate
  | CXXRecord
  | CXXMethod
  | Var
  | Namespace
  | Using
  | UsingDirective
  | TypeAlias
  | Typedef
  | Enum
  deriving DecidableEq, Repr

/-- One link of the `getDeclContext()` / `getParent()` chain. -/
inductive DeclContext where
  | TranslationUnit
  | LinkageSpec
  | Namespace (Name : String)
  | Record (Name : String)
  | Other
  deriving DecidableEq, Repr

/-- What the program reads from a `clang::NamedDecl`.  `ID` stands for the
pointer; `Contexts` is the chain `getDeclContext()`, `getParent()`, ... from
the innermost context outwards; `File` is the name of the file entry of the
expansion location (`none` when the location is invalid or has no file entry);
`LocStart`/`LocEnd` are the offsets of `getLocStart()`/`getLocEnd()` and
`Comment` the range of the attached raw comment, when there is one. -/
structure Decl where
  ID : Nat
  DeclKind : Kind
  QualifiedName : String
  Contexts : List DeclContext
  File : Option String
  LocStart : Nat
  LocEnd : Nat
  Comment : Option (Nat × Nat)
  deriving DecidableEq, Repr

/-- What the program reads from the `SourceManager` and its file manager: the
buffer of a file (by file entry name), the absolute, canonical form of a path
(`MakeAbsolutePath(SM, Path)`), and the file entry found for an absolute path
(`getFileManager().getFile`, by name; `none` when there is no such file). -/
structure SourceManager where
  Buffers : String → Option String
  MakeAbsolutePath : String → String
  getFile : String → Option String

/-- The characters of `s` from offset `b` up to offset `e`. -/
def substr (s : String) (b e : Nat) : String :=
  ⟨(s.data.drop b).take (e - b)⟩

/-- `Lexer::ReadToEndOfLine` as used by `getLocForEndOfDecl`: the number of
characters from offset `off` up to the next line terminator or the end of the
buffer. -/
def ReadToEndOfLine (File : String) (off : Nat) : Nat :=
  ((File.data.drop off).takeWhile (fun c => c != '\n')).length

/-- `getLocForEndOfDecl`: the end of the line holding the end of `D`, one past
the newline unless the line ends the file.  Without a buffer the location is
invalid. -/
def getLocForEndOfDecl (SM : SourceManager) (D : Decl) : Option Nat :=
  match D.File.bind SM.Buffers with
  | none => none
  | some File =>
    let EndLoc := D.LocEnd + ReadToEndOfLine File D.LocEnd
    some (if File.length = EndLoc then EndLoc else EndLoc + 1)

/-- `getFullRange`: the range of a declaration together with the comment
attached to it, as a character range `(begin, end)`. -/
def getFullRange (SM : SourceManager) (D : Decl) : Nat × Nat :=
  let Full : Nat × Nat := (D.LocStart, (getLocForEndOfDecl SM D).getD 0)
  match D.Comment with
  | none => Full
  | some (CBegin, CEnd) =>
    let Full := if Full.2 < CEnd then (Full.1, CEnd) else Full
    if CBegin < Full.1 then (CBegin, Full.2) else Full

/-- `getDeclarationSourceText`: the text of the buffer in the full range. -/
def getDeclarationSourceText (SM : SourceManager) (D : Decl) : String :=
  match D.File.bind SM.Buffers with
  | none => ""
  | some File => substr File (getFullRange SM D).1 (getFullRange SM D).2

/-- The loop of `getNamespaces`: walk the context chain outwards, stop at the
translation unit or a linkage specification, collect namespace names. -/
def getNamespacesLoop : List DeclContext → List String
  | [] => []
  | DeclContext.TranslationUnit :: _ => []
  | DeclContext.LinkageSpec :: _ => []
  | DeclContext.Namespace Name :: rest => getNamespacesLoop rest ++ [Name]
  | _ :: rest => getNamespacesLoop rest

/-- `getNamespaces`: the names of the enclosing namespaces, outermost first.
The source pushes inner to outer and reverses; the recursion appends instead. -/
def getNamespaces (D : Decl) : List String :=
  getNamespacesLoop D.Contexts

/-! ## Replacements (tooling library) -/

/-- A `clang::tooling::Replacement`. -/
structure Replacement where
  FilePath : String
  Offset : Nat
  Length : Nat
  ReplacementText : String
  deriving DecidableEq, Repr

/-- A `clang::tooling::Replacements`: the replacements of one file, kept in
increasing order of offset. -/
abbrev Replacements := List Replacement

/-! ## The namespace-aware emitter -/

/-- The include guard name: every non-alphanumeric character of the file name
becomes an underscore, then the name is upper-cased. -/
def GuardName (FileName : String) : String :=
  ⟨(FileName.data.map (fun c => if c.isAlphanum then c else '_')).map Char.toUpper⟩

/-- The loop "Skip the common prefix": the number of leading namespaces the
two paths share. -/
def skipCommonPrefix : List String → List String → Nat
  | c :: cs, d :: ds => if c != d then 0 else skipCommonPrefix cs ds + 1
  | _, _ => 0

/-- The `} // namespace X` lines for the given namespaces, in the given
order. -/
def closeLines : List String → String
  | [] => ""
  | NS :: rest => "\x7d // namespace " ++ NS ++ "\n" ++ closeLines rest

/-- The `namespace X {` lines for the given namespaces, in the given order. -/
def openLines : List String → String
  | [] => ""
  | NS :: rest => "namespace " ++ NS ++ " \x7b\n" ++ openLines rest

/-- The loop `for (Include : Includes) NewCode += Include`. -/
def appendAll : List String → String
  | [] => ""
  | Include :: rest => Include ++ appendAll rest

/-- The body of the loop over `Decls` of `createInsertedReplacements`: the
text appended for the declarations, given the namespaces currently open, and
the closing lines appended after the loop. -/
def emitDecls (SM : SourceManager) : List Decl → List String → String
  | [], CurrentNamespaces => closeLines CurrentNamespaces.reverse
  | MovedDecl :: rest, CurrentNamespaces =>
    let DeclNamespaces := getNamespaces MovedDecl
    let n := skipCommonPrefix CurrentNamespaces DeclNamespaces
    let NextNamespaces := CurrentNamespaces.take n ++ DeclNamespaces.drop n
    let Ended := (CurrentNamespaces.drop n).reverse
    let HasEndCurrentNamespace := !Ended.isEmpty
    let Opened := DeclNamespaces.drop n
    let IsInNewNamespace := !Opened.isEmpty
    closeLines Ended
      ++ (if HasEndCurrentNamespace then "\n" else "")
      ++ openLines Opened
      ++ (if !IsInNewNamespace then "\n" else "")
      ++ getDeclarationSourceText SM MovedDecl
      ++ emitDecls SM rest NextNamespaces

/-- The text `NewCode` built by `createInsertedReplacements`. -/
def NewCode (SM : SourceManager) (Includes : List String) (Decls : List Decl)
    (FileName : String) (IsHeader : Bool) (OldHeaderInclude : String) : String :=
  (if IsHeader then
      "#ifndef " ++ GuardName FileName ++ "\n"
        ++ ("#define " ++ GuardName FileName ++ "\n\n")
    else "")
    ++ OldHeaderInclude
    ++ appendAll Includes
    ++ (if !Includes.isEmpty then "\n" else "")
    ++ emitDecls SM Decls []
    ++ (if IsHeader then "\n#endif // " ++ GuardName FileName ++ "\n" else "")

/-- `createInsertedReplacements`: one insertion of `NewCode` at offset 0 of
the file `FileName`. -/
def createInsertedReplacements (SM : SourceManager) (Includes : List String)
    (Decls : List Decl) (FileName : String) (IsHeader : Bool)
    (OldHeaderInclude : String) : Replacements :=
  [⟨FileName, 0, 0, NewCode SM Includes Decls FileName IsHeader OldHeaderInclude⟩]

/-! ### The emitted text as a sequence of pieces

Every `NewCode += ...` of `createInsertedReplacements` appends one piece: a
namespace opening line, a namespace closing line, the source text of a
declaration, or other text (guard lines, include lines, blank lines). -/

/-- One piece of text appended to `NewCode`. -/
inductive Piece where
  | Text (s : String)
  | Open (NS : String)
  | Close (NS : String)
  | Source (D : Decl)
  deriving DecidableEq, Repr

/-- The text of a piece. -/
def Piece.render (SM : SourceManager) : Piece → String
  | Piece.Text s => s
  | Piece.Open NS => "namespace " ++ NS ++ " \x7b\n"
  | Piece.Close NS => "\x7d // namespace " ++ NS ++ "\n"
  | Piece.Source D => getDeclarationSourceText SM D

/-- The text of a sequence of pieces. -/
def render (SM : SourceManager) : List Piece → String
  | [] => ""
  | p :: ps => p.render SM ++ render SM ps

/-- The pieces appended by the loop over `Decls` and by the closing loop after
it, statement by statement as in `emitDecls`. -/
def emitPieces : List Decl → List String → List Piece
  | [], CurrentNamespaces => CurrentNamespaces.reverse.map Piece.Close
  | MovedDecl :: rest, CurrentNamespaces =>
    let DeclNamespaces := getNamespaces MovedDecl
    let n := skipCommonPrefix CurrentNamespaces DeclNamespaces
    let NextNamespaces := CurrentNamespaces.take n ++ DeclNamespaces.drop n
    let Ended := (CurrentNamespaces.drop n).reverse
    let Opened := DeclNamespaces.drop n
    Ended.map Piece.Close
      ++ (if !Ended.isEmpty then [Piece.Text "\n"] else [])
      ++ Opened.map Piece.Open
      ++ (if Opened.isEmpty then [Piece.Text "\n"] else [])
      ++ [Piece.Source MovedDecl]
      ++ emitPieces rest NextNamespaces

/-- The pieces emitted before the declarations: guard opening, the include of
the old header, the replayed includes and the blank line after them. -/
def prologuePieces (Includes : List String) (FileName : String) (IsHeader : Bool)
    (OldHeaderInclude : String) : List Piece :=
  (if IsHeader then
      [Piece.Text ("#ifndef " ++ GuardName FileName ++ "\n"),
       Piece.Text ("#define " ++ GuardName FileName ++ "\n\n")]
    else [])
    ++ [Piece.Text OldHeaderInclude]
    ++ Includes.map Piece.Text
    ++ (if !Includes.isEmpty then [Piece.Text "\n"] else [])

/-- The pieces emitted after the last namespace closing line. -/
def epiloguePieces (FileName : String) (IsHeader : Bool) : List Piece :=
  if IsHeader then [Piece.Text ("\n#endif // " ++ GuardName FileName ++ "\n")] else []

/-- All pieces of `NewCode`, in the order they are appended. -/
def codePieces (Includes : List String) (Decls : List Decl) (FileName : String)
    (IsHeader : Bool) (OldHeaderInclude : String) : List Piece :=
  prologuePieces Includes FileName IsHeader OldHeaderInclude
    ++ emitPieces Decls []
    ++ epiloguePieces FileName IsHeader

/-- The effect of one piece on the namespaces opened and not yet closed
(outermost first): an opening line opens its namespace inside the current
ones, a closing brace closes the innermost one. -/
def stackStep (Stack : List String) : Piece → List String
  | Piece.Open NS => Stack ++ [NS]
  | Piece.Close _ => Stack.dropLast
  | _ => Stack

/-- The namespaces opened and not yet closed after a sequence of pieces. -/
def openStack (Stack : List String) (ps : List Piece) : List String :=
  ps.foldl stackStep Stack

/-- Checks that the namespace lines are properly nested: a closing line must
name the innermost namespace still open.  Returns the namespaces left open. -/
def replay : List Piece → List String → Option (List String)
  | [], Stack => some Stack
  | Piece.Open NS :: ps, Stack => replay ps (Stack ++ [NS])
  | Piece.Close NS :: ps, Stack =>
    if Stack.getLast? = some NS then replay ps Stack.dropLast else none
  | _ :: ps, Stack => replay ps Stack

/-- Whether a piece is a namespace opening line. -/
def Piece.isOpen : Piece → Bool
  | Piece.Open _ => true
  | _ => false

/-- Whether a piece is a namespace closing line. -/
def Piece.isClose : Piece → Bool
  | Piece.Close _ => true
  | _ => false

/-- Whether a piece is the source text of a declaration. -/
def Piece.isSource : Piece → Bool
  | Piece.Source _ => true
  | _ => false

/-- The namespace opening and closing lines among the pieces, in order. -/
def namespaceLines (ps : List Piece) : List Piece :=
  ps.filter (fun p => p.isOpen || p.isClose)

/-- The declarations whose source text is appended, each with the namespaces
opened and not yet closed at that point, starting from `Stack`. -/
def sourceStacks : List String → List Piece → List (Decl × List String)
  | _, [] => []
  | Stack, Piece.Source D :: ps => (D, Stack) :: sourceStacks Stack ps
  | Stack, p :: ps => sourceStacks (stackStep Stack p) ps

/-- The pieces appended for one declaration before its source text, given the
namespaces currently open and the namespaces of the declaration. -/
def headPieces (Cur DeclNS : List String) : List Piece :=
  ((Cur.drop (skipCommonPrefix Cur DeclNS)).reverse).map Piece.Close
    ++ (if !((Cur.drop (skipCommonPrefix Cur DeclNS)).reverse).isEmpty
        then [Piece.Text "\n"] else [])
    ++ (DeclNS.drop (skipCommonPrefix Cur DeclNS)).map Piece.Open
    ++ (if (DeclNS.drop (skipCommonPrefix Cur DeclNS)).isEmpty
        then [Piece.Text "\n"] else [])


/-! ## Edits: the tooling library -/

/-- The text after one replacement: the characters before the offset, the
replacement text, the characters after the replaced range. -/
def applyReplacement (Code : String) (R : Replacement) : String :=
  ⟨Code.data.take R.Offset ++ R.ReplacementText.data
    ++ Code.data.drop (R.Offset + R.Length)⟩

/-- The text after all replacements of a set (`applyAllReplacements`): they
are applied from the last one to the first one, so that offsets stay valid. -/
def applyAllReplacements (Code : String) (Replaces : Replacements) : String :=
  Replaces.foldr (fun R C => applyReplacement C R) Code

/-- `Replacements::merge` for the operands `moveAll` passes: the receiver is
the single insertion `AllCode` of a whole text, the argument a single
replacement `R` whose range refers to the text after `AllCode` is applied.  By
the contract of `merge` the result has the effect of applying `AllCode` and
then `R`: it is the insertion of the text to which `R` has been applied. -/
def Replacements.merge (AllCode R : Replacement) : Replacements :=
  [⟨AllCode.FilePath, AllCode.Offset, AllCode.Length,
    applyReplacement AllCode.ReplacementText R⟩]

/-- The offset `UINT_MAX` that marks a header insertion. -/
def UINT_MAX : Nat := 2 ^ 32 - 1

/-- `Range::overlapsWith` on `(offset, length)` pairs. -/
def overlapsWith (Offset Length RHSOffset RHSLength : Nat) : Bool :=
  Offset + Length > RHSOffset && Offset < RHSOffset + RHSLength

/-- Ordered insertion into a replacement set (ordered by offset, then length,
then text); an element already present is not inserted again. -/
def insertReplacement (R : Replacement) : Replacements → Replacements
  | [] => [R]
  | X :: rest =>
    if R = X then X :: rest
    else if R.Offset < X.Offset
        ∨ (R.Offset = X.Offset ∧ (R.Length < X.Length
            ∨ (R.Length = X.Length ∧ R.ReplacementText.data < X.ReplacementText.data)))
      then R :: X :: rest
    else X :: insertReplacement R rest

/-- A reference `Replacements::add` that treats every overlap with an existing
replacement as a conflict: on a conflict, or when the file path differs from
the one of the set, it reports an error (`true`) and leaves the set as it is;
otherwise it inserts the replacement.  Header insertions (offset `UINT_MAX`)
never conflict. -/
def Replacements.addStrict (Replaces : Replacements) (R : Replacement) :
    Replacements × Bool :=
  if Replaces.any (fun X => X.FilePath != R.FilePath) then (Replaces, true)
  else if R.Offset = UINT_MAX then (insertReplacement R Replaces, false)
  else if Replaces.any
      (fun X => overlapsWith R.Offset R.Length X.Offset X.Length) then (Replaces, true)
  else (insertReplacement R Replaces, false)

/-- The `std::map` from file path to replacements, as a list of entries in
increasing key order (the order of the characters of the keys). -/
abbrev FileMap := List (String × Replacements)

/-- Reading `Map[FilePath]`: the replacements stored for the path, the empty
set when there is no entry. -/
def FileMap.find (M : FileMap) (FilePath : String) : Replacements :=
  match M with
  | [] => []
  | (G, S) :: rest => if G = FilePath then S else FileMap.find rest FilePath

/-- The assignment `Map[FilePath] = Replaces`: overwrite the entry, or create
it at its place in key order. -/
def FileMap.set (M : FileMap) (FilePath : String) (Replaces : Replacements) : FileMap :=
  match M with
  | [] => [(FilePath, Replaces)]
  | (G, S) :: rest =>
    if G = FilePath then (G, Replaces) :: rest
    else if FilePath.data < G.data then (FilePath, Replaces) :: (G, S) :: rest
    else (G, S) :: FileMap.set rest FilePath Replaces

/-! ## The move tool -/

/-- The `MoveDefinitionSpec`: what to move, from where, to where. -/
structure MoveDefinitionSpec where
  Names : List String
  OldHeader : String
  OldCC : String
  NewHeader : String
  NewCC : String
  OldDependOnNew : Bool
  NewDependOnOld : Bool

/-- The `ClangMoveContext` shared by the tool. -/
structure ClangMoveContext where
  Spec : MoveDefinitionSpec
  FileToReplacements : FileMap
  OriginalRunningDirectory : String
  FallbackStyle : String
  DumpDeclarations : Bool

/-- A `CharSourceRange` of characters `[Begin, End)` in the file `File`. -/
structure CharSourceRange where
  File : String
  Begin : Nat
  End : Nat
  deriving DecidableEq, Repr

/-- The collaborators outside the program: the source manager, the path
normalisation of `llvm::sys` (`make_absolute`, `remove_dots`, `native`) for a
directory and a non-empty path, `llvm::sys::path::append` of a search path and
a file name, the formatter's `cleanupAroundReplacements`
for a file's code and replacements, with the style found for the file path and
the fallback style name (`none` on failure), and the
tooling library's `Replacements::add`, which returns the set after the call
and whether it reported an error. -/
structure Env where
  SM : SourceManager
  make_absolute : String → String → String
  path_append : String → String → String
  cleanupAroundReplacements : String → Replacements → String → String → Option Replacements
  add : Replacements → Replacement → Replacements × Bool

/-- The state of `ClangMoveTool`.  `OldHeaderIncludeRange` is `none` while the
range is invalid; `FilePathToFileID` maps a file path to the name under which
the source manager holds its buffer; `Errors` counts the messages written to
the error stream; `Reported` is what the `DeclarationReporter` has received. -/
structure ClangMoveTool where
  Context : ClangMoveContext
  MovedDecls : List Decl
  RemovedDecls : List Decl
  UnremovedDeclsInOldHeader : List Decl
  HeaderIncludes : List String
  CCIncludes : List String
  OldHeaderIncludeRange : Option CharSourceRange
  FilePathToFileID : List (String × String)
  Errors : Nat
  Reported : List (String × String)

/-- `MakeAbsolutePath(CurrentDir, Path)`: the empty string for an empty path,
the normalised absolute path otherwise. -/
def MakeAbsolutePath (E : Env) (CurrentDir Path : String) : String :=
  if Path.isEmpty then "" else E.make_absolute CurrentDir Path

/-- `ClangMoveTool::makeAbsolutePath`. -/
def ClangMoveTool.makeAbsolutePath (E : Env) (T : ClangMoveTool) (Path : String) : String :=
  MakeAbsolutePath E T.Context.OriginalRunningDirectory Path

/-- `isInHeaderFile`: whether the declaration is expanded in the old header. -/
def isInHeaderFile (E : Env) (D : Decl) (OriginalRunningDirectory OldHeader : String) :
    Bool :=
  if OldHeader.isEmpty then false
  else
    match D.File with
    | none => false
    | some FE =>
      E.SM.MakeAbsolutePath FE == MakeAbsolutePath E OriginalRunningDirectory OldHeader

/-- The file path of `Replacement(SM, Range, Text)` for a range in the file of
`D`: the file entry name, or `invalid-location` without a file entry. -/
def replacementFilePath (D : Decl) : String :=
  D.File.getD "invalid-location"

/-- The replacement `RemoveReplacement` built for a removed declaration: the
deletion of its full range. -/
def RemoveReplacement (SM : SourceManager) (D : Decl) : Replacement :=
  ⟨replacementFilePath D, (getFullRange SM D).1,
    (getFullRange SM D).2 - (getFullRange SM D).1, ""⟩

/-- `ClangMoveTool::addRemovedDecl`. -/
def ClangMoveTool.addRemovedDecl (T : ClangMoveTool) (D : Decl) : ClangMoveTool :=
  let FilePath := D.File.getD ""
  { T with
    FilePathToFileID :=
      (FilePath, FilePath) :: T.FilePathToFileID.filter (fun e => e.1 != FilePath)
    RemovedDecls := T.RemovedDecls ++ [D] }

/-- `ClangMoveTool::addIncludes`, called for every include directive with
the file name as written, whether it is angled, the search path it was found
in, the name of the including file and the range of the file name token. -/
def addIncludes (E : Env) (T : ClangMoveTool) (IncludeHeader : String) (IsAngled : Bool)
    (SearchPath FileName : String) (IncludeFilenameRange : CharSourceRange) :
    ClangMoveTool :=
  let HeaderWithSearchPath := E.path_append SearchPath IncludeHeader
  let AbsoluteOldHeader := T.makeAbsolutePath E T.Context.Spec.OldHeader
  if AbsoluteOldHeader == E.SM.MakeAbsolutePath HeaderWithSearchPath then
    { T with OldHeaderIncludeRange := some IncludeFilenameRange }
  else
    let IncludeLine :=
      if IsAngled then "#include <" ++ IncludeHeader ++ ">\n"
      else "#include \"" ++ IncludeHeader ++ "\"\n"
    let AbsoluteCurrentFile := E.SM.MakeAbsolutePath FileName
    if AbsoluteOldHeader == AbsoluteCurrentFile then
      { T with HeaderIncludes := T.HeaderIncludes ++ [IncludeLine] }
    else if T.makeAbsolutePath E T.Context.Spec.OldCC == AbsoluteCurrentFile then
      { T with CCIncludes := T.CCIncludes ++ [IncludeLine] }
    else T

/-! ### Match callbacks -/

/-- The names the matchers bind a matched node to. -/
inductive Binding where
  | decls_in_header
  | fwd_decl
  | anonymous_ns
  | static_decls
  | using_decl
  | class_method
  | class_static_var_decl
  | moved_class
  | function
  deriving DecidableEq, Repr

/-- A matched AST node: the declaration, the template it is the pattern of
(`getDescribedClassTemplate` / `getDescribedFunctionTemplate`), whether a
method is inlined, and what the matchers of `registerMatchers` read from the
node: whether it is implicit, a definition, an anonymous namespace, of static
storage class, a static data member; its parent in the AST (`hasParent`); and,
for a class template, whether its child is a forward declaration
(`has(ForwardDecls)`).  The record of a `DeclContext.Record` link carries the
qualified name of the class. -/
structure Node where
  D : Decl
  DescribedTemplate : Option Decl := none
  isInlined : Bool := false
  isImplicit : Bool := false
  isDefinition : Bool := false
  isAnonymous : Bool := false
  isStaticStorageClass : Bool := false
  isStaticDataMember : Bool := false
  Parent : DeclContext := DeclContext.TranslationUnit
  hasForwardDeclChild : Bool := false
  deriving DecidableEq, Repr

/-- A `MatchResult`: one node bound to one name. -/
structure MatchResult where
  Bound : Binding
  N : Node
  deriving DecidableEq, Repr

/-- Insertion into the pointer set `UnremovedDeclsInOldHeader`. -/
def insertDecl (S : List Decl) (D : Decl) : List Decl :=
  if D ∈ S then S else S ++ [D]

/-- `FunctionDeclarationMatch::run`. -/
def FunctionDeclarationMatch.run (T : ClangMoveTool) (FD : Node) : ClangMoveTool :=
  let D := match FD.DescribedTemplate with
    | some FTD => FTD
    | none => FD.D
  let T := { T with MovedDecls := T.MovedDecls ++ [D] }
  let T := { T with UnremovedDeclsInOldHeader := T.UnremovedDeclsInOldHeader.erase D }
  T.addRemovedDecl D

/-- `ClassDeclarationMatch::MatchClassMethod`. -/
def ClassDeclarationMatch.MatchClassMethod (T : ClangMoveTool) (CMD : Node) :
    ClangMoveTool :=
  if !CMD.isInlined then
    let T := { T with MovedDecls := T.MovedDecls ++ [CMD.D] }
    let T := T.addRemovedDecl CMD.D
    match CMD.DescribedTemplate with
    | some FTD =>
      { T with UnremovedDeclsInOldHeader := T.UnremovedDeclsInOldHeader.erase FTD }
    | none =>
      { T with UnremovedDeclsInOldHeader := T.UnremovedDeclsInOldHeader.erase CMD.D }
  else T

/-- `ClassDeclarationMatch::MatchClassStaticVariable`. -/
def ClassDeclarationMatch.MatchClassStaticVariable (T : ClangMoveTool) (VD : Node) :
    ClangMoveTool :=
  let T := { T with MovedDecls := T.MovedDecls ++ [VD.D] }
  let T := T.addRemovedDecl VD.D
  { T with UnremovedDeclsInOldHeader := T.UnremovedDeclsInOldHeader.erase VD.D }

/-- `ClassDeclarationMatch::MatchClassDeclaration`. -/
def ClassDeclarationMatch.MatchClassDeclaration (T : ClangMoveTool) (CD : Node) :
    ClangMoveTool :=
  let Back := match CD.DescribedTemplate with
    | some Template => Template
    | none => CD.D
  let T := { T with MovedDecls := T.MovedDecls ++ [Back] }
  let T := T.addRemovedDecl Back
  { T with UnremovedDeclsInOldHeader := T.UnremovedDeclsInOldHeader.erase Back }

/-- `ClassDeclarationMatch::run`. -/
def ClassDeclarationMatch.run (T : ClangMoveTool) (Result : MatchResult) : ClangMoveTool :=
  match Result.Bound with
  | Binding.class_method => ClassDeclarationMatch.MatchClassMethod T Result.N
  | Binding.class_static_var_decl =>
    ClassDeclarationMatch.MatchClassStaticVariable T Result.N
  | Binding.moved_class => ClassDeclarationMatch.MatchClassDeclaration T Result.N
  | _ => T

/-- `ClangMoveTool::run`. -/
def ClangMoveTool.run (T : ClangMoveTool) (Result : MatchResult) : ClangMoveTool :=
  match Result.Bound with
  | Binding.decls_in_header =>
    { T with UnremovedDeclsInOldHeader := insertDecl T.UnremovedDeclsInOldHeader Result.N.D }
  | Binding.fwd_decl =>
    if T.RemovedDecls.isEmpty then
      match Result.N.DescribedTemplate with
      | some DCT => { T with MovedDecls := T.MovedDecls ++ [DCT] }
      | none => { T with MovedDecls := T.MovedDecls ++ [Result.N.D] }
    else T
  | Binding.anonymous_ns => { T with MovedDecls := T.MovedDecls ++ [Result.N.D] }
  | Binding.static_decls => { T with MovedDecls := T.MovedDecls ++ [Result.N.D] }
  | Binding.using_decl => { T with MovedDecls := T.MovedDecls ++ [Result.N.D] }
  | _ => T

/-- The dispatch of a match result to the callback its matcher was registered
with in `registerMatchers`. -/
def onMatch (T : ClangMoveTool) (Result : MatchResult) : ClangMoveTool :=
  match Result.Bound with
  | Binding.class_method => ClassDeclarationMatch.run T Result
  | Binding.class_static_var_decl => ClassDeclarationMatch.run T Result
  | Binding.moved_class => ClassDeclarationMatch.run T Result
  | Binding.function => FunctionDeclarationMatch.run T Result.N
  | _ => ClangMoveTool.run T Result

/-- The tool after a stream of match results. -/
def onMatches (T : ClangMoveTool) (Results : List MatchResult) : ClangMoveTool :=
  Results.foldl onMatch T


/-! ### End of the translation unit -/

/-- The constructor of `ClangMoveTool`: the new implementation file starts
with the include of the new header, when there is one. -/
def ClangMoveTool.init (Context : ClangMoveContext) : ClangMoveTool :=
  { Context := Context
    MovedDecls := []
    RemovedDecls := []
    UnremovedDeclsInOldHeader := []
    HeaderIncludes := []
    CCIncludes :=
      if !Context.Spec.NewHeader.isEmpty
        then ["#include \"" ++ Context.Spec.NewHeader ++ "\"\n"] else []
    OldHeaderIncludeRange := none
    FilePathToFileID := []
    Errors := 0
    Reported := [] }

/-- The tool with `Context->FileToReplacements` replaced. -/
def ClangMoveTool.setFileToReplacements (T : ClangMoveTool) (M : FileMap) : ClangMoveTool :=
  { T with Context := { T.Context with FileToReplacements := M } }

/-- The first loop of `removeDeclsInOldFiles`: for each removed declaration
the deletion of its full range is added to the replacements of its file; an
error of `add` is written to the error stream.  The state is the map and the
number of messages written. -/
def addRemoveReplacements (E : Env) : List Decl → FileMap × Nat → FileMap × Nat
  | [], State => State
  | RemovedDecl :: rest, (M, Errors) =>
    let R := RemoveReplacement E.SM RemovedDecl
    let FilePath := R.FilePath
    let Added := E.add (M.find FilePath) R
    addRemoveReplacements E rest
      (M.set FilePath Added.1, if Added.2 then Errors + 1 else Errors)

/-- One iteration of the second loop of `removeDeclsInOldFiles` on the entry
of one file: the include of the new header is added to the old header when the
old header depends on the new one, then the replacements of a file the tool
removed declarations from are cleaned up.  Returns the entry and the number of
messages written. -/
def cleanupEntry (E : Env) (T : ClangMoveTool) (Entry : String × Replacements) :
    (String × Replacements) × Nat :=
  let FilePath := Entry.1
  let Included : Replacements × Nat :=
    if T.Context.Spec.OldDependOnNew
        && E.SM.MakeAbsolutePath FilePath == T.makeAbsolutePath E T.Context.Spec.OldHeader then
      let IncludeNewH := "#include \"" ++ T.Context.Spec.NewHeader ++ "\"\n"
      let Added := E.add Entry.2 ⟨FilePath, UINT_MAX, 0, IncludeNewH⟩
      (Added.1, if Added.2 then 1 else 0)
    else (Entry.2, 0)
  match T.FilePathToFileID.lookup FilePath with
  | none => ((FilePath, Included.1), Included.2)
  | some ID =>
    let Code := (E.SM.Buffers ID).getD ""
    match E.cleanupAroundReplacements Code Included.1 FilePath T.Context.FallbackStyle with
    | none => ((FilePath, Included.1), Included.2 + 1)
    | some CleanReplacements => ((FilePath, CleanReplacements), Included.2)

/-- `ClangMoveTool::removeDeclsInOldFiles`. -/
def removeDeclsInOldFiles (E : Env) (T : ClangMoveTool) : ClangMoveTool :=
  if T.RemovedDecls.isEmpty then T
  else
    let Added := addRemoveReplacements E T.RemovedDecls
      (T.Context.FileToReplacements, T.Errors)
    let Cleaned := Added.1.map (cleanupEntry E T)
    { T.setFileToReplacements (Cleaned.map (fun c => c.1)) with
      Errors := Added.2 + (Cleaned.map (fun c => c.2)).sum }

/-- `ClangMoveTool::moveDeclsToNewFiles`. -/
def moveDeclsToNewFiles (E : Env) (T : ClangMoveTool) : ClangMoveTool :=
  let InHeader := fun D =>
    isInHeaderFile E D T.Context.OriginalRunningDirectory T.Context.Spec.OldHeader
  let NewHeaderDecls := T.MovedDecls.filter InHeader
  let NewCCDecls := T.MovedDecls.filter (fun D => !InHeader D)
  let M := T.Context.FileToReplacements
  let M :=
    if !T.Context.Spec.NewHeader.isEmpty then
      let OldHeaderInclude :=
        if T.Context.Spec.NewDependOnOld
          then "#include \"" ++ T.Context.Spec.OldHeader ++ "\"\n" else ""
      M.set T.Context.Spec.NewHeader
        (createInsertedReplacements E.SM T.HeaderIncludes NewHeaderDecls
          T.Context.Spec.NewHeader true OldHeaderInclude)
    else M
  let M :=
    if !T.Context.Spec.NewCC.isEmpty then
      M.set T.Context.Spec.NewCC
        (createInsertedReplacements E.SM T.CCIncludes NewCCDecls
          T.Context.Spec.NewCC false "")
    else M
  T.setFileToReplacements M

/-- `ClangMoveTool::moveAll`: move all contents from `OldFile` to `NewFile`. -/
def moveAll (E : Env) (T : ClangMoveTool) (OldFile NewFile : String) : ClangMoveTool :=
  match E.SM.getFile (T.makeAbsolutePath E OldFile) with
  | none => { T with Errors := T.Errors + 1 }
  | some FE =>
    let Code := (E.SM.Buffers FE).getD ""
    let RemoveAll : Replacement := ⟨FE, 0, Code.length, ""⟩
    let FilePath := RemoveAll.FilePath
    let M := T.Context.FileToReplacements.set FilePath [RemoveAll]
    if !NewFile.isEmpty then
      let AllCode : Replacement := ⟨NewFile, 0, 0, Code⟩
      let Merged : Replacements :=
        match T.OldHeaderIncludeRange with
        | some Range =>
          if T.Context.Spec.NewCC == NewFile then
            Replacements.merge AllCode
              ⟨Range.File, Range.Begin, Range.End - Range.Begin,
                "\"" ++ T.Context.Spec.NewHeader ++ "\""⟩
          else [AllCode]
        | none => [AllCode]
      T.setFileToReplacements (M.set NewFile Merged)
    else T.setFileToReplacements M

/-- The lambda `IsSupportedKind` of `onEndOfTranslationUnit`. -/
def IsSupportedKind (D : Decl) : Bool :=
  match D.DeclKind with
  | Kind.Function => true
  | Kind.FunctionTemplate => true
  | Kind.ClassTemplate => true
  | Kind.CXXRecord => true
  | _ => false

/-- What `onEndOfTranslationUnit` does, by the conditions it tests in order. -/
inductive EndAction where
  | Dump
  | Nothing
  | MoveAll
  | MoveDecls
  deriving DecidableEq, Repr

/-- The branch `onEndOfTranslationUnit` takes. -/
def endAction (T : ClangMoveTool) : EndAction :=
  if T.Context.DumpDeclarations then EndAction.Dump
  else if T.RemovedDecls.isEmpty then EndAction.Nothing
  else if T.UnremovedDeclsInOldHeader.all (fun D => !IsSupportedKind D)
      && !T.Context.Spec.OldHeader.isEmpty then EndAction.MoveAll
  else EndAction.MoveDecls

/-- The report of one declaration in dump mode, if its kind is reported. -/
def reportDeclaration (D : Decl) : Option (String × String) :=
  if D.DeclKind = Kind.Function ∨ D.DeclKind = Kind.FunctionTemplate then
    some (D.QualifiedName, "Function")
  else if D.DeclKind = Kind.ClassTemplate ∨ D.DeclKind = Kind.CXXRecord then
    some (D.QualifiedName, "Class")
  else none

/-- `ClangMoveTool::onEndOfTranslationUnit`. -/
def onEndOfTranslationUnit (E : Env) (T : ClangMoveTool) : ClangMoveTool :=
  match endAction T with
  | EndAction.Dump =>
    { T with Reported := T.Reported ++ T.UnremovedDeclsInOldHeader.filterMap reportDeclaration }
  | EndAction.Nothing => T
  | EndAction.MoveAll =>
    moveAll E (moveAll E T T.Context.Spec.OldHeader T.Context.Spec.NewHeader)
      T.Context.Spec.OldCC T.Context.Spec.NewCC
  | EndAction.MoveDecls => moveDeclsToNewFiles E (removeDeclsInOldFiles E T)


/-! ### The matchers of `registerMatchers` -/

/-- The characters `StringRef::trim` removes. -/
def isTrimChar (c : Char) : Bool :=
  c == ' ' || c == '\t' || c == '\n' || c == '\x0b' || c == '\x0c' || c == '\r'

/-- `SymbolName.trim().ltrim(':')`: the symbol name without surrounding white
space and without leading colons. -/
def GlobalSymbolName (SymbolName : String) : String :=
  ⟨((((SymbolName.data.dropWhile isTrimChar).reverse).dropWhile isTrimChar).reverse).dropWhile
    (fun c => c == ':')⟩

/-- `hasName(Name)` for a name anchored at the global scope: the fully
qualified name of the declaration, with the leading `::`, is `Name`. -/
def hasName (Name : String) (QualifiedName : String) : Bool :=
  Name == "::" ++ QualifiedName

/-- The loop building `HasAnySymbolNames`: the disjunction of `hasName` over
the requested symbols, on a qualified name; `none` when no symbol is
requested. -/
def HasAnySymbolNames (Names : List String) : Option (String → Bool) :=
  Names.foldl
    (fun Acc SymbolName =>
      let HasName := hasName ("::" ++ GlobalSymbolName SymbolName)
      match Acc with
      | some Previous => some (fun Q => Previous Q || HasName Q)
      | none => some HasName)
    none

/-- The matcher `anyOf(namespaceDecl(), translationUnitDecl())` on a context. -/
def isNamespaceOrTranslationUnit : DeclContext → Bool
  | DeclContext.Namespace _ => true
  | DeclContext.TranslationUnit => true
  | _ => false

/-- The matcher `anyOf(namespaceDecl(unless(isAnonymous())),
translationUnitDecl())` on a context; an anonymous namespace has no name. -/
def isNamedNamespaceOrTranslationUnit : DeclContext → Bool
  | DeclContext.Namespace Name => !Name.isEmpty
  | DeclContext.TranslationUnit => true
  | _ => false

/-- `hasDeclContext(anyOf(namespaceDecl(), translationUnitDecl()))`. -/
def hasNamespaceOrTranslationUnitContext (N : Node) : Bool :=
  match N.D.Contexts with
  | [] => false
  | Context :: _ => isNamespaceOrTranslationUnit Context

/-- The loop of `hasOutermostEnclosingClass`: climb from `Context` while the
next context is neither a namespace nor the translation unit. -/
def climbToOutermostContext (Context : DeclContext) : List DeclContext → DeclContext
  | [] => Context
  | NextContext :: rest =>
    if isNamespaceOrTranslationUnit NextContext then Context
    else climbToOutermostContext NextContext rest

/-- `hasOutermostEnclosingClass(cxxRecordDecl(InnerMatcher))`: the outermost
context below the namespaces is a class whose name `InnerMatcher` accepts. -/
def hasOutermostEnclosingClass (InnerMatcher : String → Bool) (N : Node) : Bool :=
  match N.D.Contexts with
  | [] => false
  | Context :: rest =>
    match climbToOutermostContext Context rest with
    | DeclContext.Record Name => InnerMatcher Name
    | _ => false

/-- The loop of `ofOutermostEnclosingClass`: climb from the class `Parent`
while its parent is a class. -/
def climbToOutermostClass (Parent : String) : List DeclContext → String
  | DeclContext.Record NextParent :: rest => climbToOutermostClass NextParent rest
  | _ => Parent

/-- `ofOutermostEnclosingClass(InnerMatcher)` on a method: the outermost of the
classes the method is nested in has a name `InnerMatcher` accepts. -/
def ofOutermostEnclosingClass (InnerMatcher : String → Bool) (N : Node) : Bool :=
  match N.D.Contexts with
  | DeclContext.Record Parent :: rest => InnerMatcher (climbToOutermostClass Parent rest)
  | _ => false

/-- `isExpansionInFile(AbsoluteFilePath)`. -/
def isExpansionInFile (E : Env) (AbsoluteFilePath : String) (N : Node) : Bool :=
  match N.D.File with
  | none => false
  | some FE => E.SM.MakeAbsolutePath FE == AbsoluteFilePath

/-- The matcher `functionDecl()`: functions and methods. -/
def functionDecl (N : Node) : Bool :=
  N.D.DeclKind == Kind.Function || N.D.DeclKind == Kind.CXXMethod

/-- `InOldHeader`. -/
def InOldHeader (E : Env) (Context : ClangMoveContext) (N : Node) : Bool :=
  isExpansionInFile E (MakeAbsolutePath E Context.OriginalRunningDirectory Context.Spec.OldHeader) N

/-- `InOldCC`. -/
def InOldCC (E : Env) (Context : ClangMoveContext) (N : Node) : Bool :=
  isExpansionInFile E (MakeAbsolutePath E Context.OriginalRunningDirectory Context.Spec.OldCC) N

/-- `InOldFiles`. -/
def InOldFiles (E : Env) (Context : ClangMoveContext) (N : Node) : Bool :=
  InOldHeader E Context N || InOldCC E Context N

/-- `ForwardDecls`: a class declaration that is neither implicit nor a
definition. -/
def ForwardDecls (N : Node) : Bool :=
  N.D.DeclKind == Kind.CXXRecord && !(N.isImplicit || N.isDefinition)

/-- `AllDeclsInHeader`, bound to `decls_in_header`. -/
def AllDeclsInHeader (E : Env) (Context : ClangMoveContext) (N : Node) : Bool :=
  !ForwardDecls N && !(N.D.DeclKind == Kind.Namespace)
    && !(N.D.DeclKind == Kind.UsingDirective)
    && !(N.D.DeclKind == Kind.ClassTemplate && N.hasForwardDeclChild)
    && InOldHeader E Context N
    && isNamespaceOrTranslationUnit N.Parent
    && hasNamespaceOrTranslationUnitContext N

/-- The matcher bound to `fwd_decl`. -/
def ForwardDeclsInOldHeader (E : Env) (Context : ClangMoveContext) (N : Node) : Bool :=
  ForwardDecls N && InOldHeader E Context N

/-- `InOldCCNamedOrGlobalNamespace`. -/
def InOldCCNamedOrGlobalNamespace (E : Env) (Context : ClangMoveContext) (N : Node) : Bool :=
  isNamedNamespaceOrTranslationUnit N.Parent && InOldCC E Context N

/-- The matcher bound to `using_decl`. -/
def UsingDecls (E : Env) (Context : ClangMoveContext) (N : Node) : Bool :=
  (N.D.DeclKind == Kind.Using || N.D.DeclKind == Kind.UsingDirective
      || N.D.DeclKind == Kind.TypeAlias)
    && InOldCCNamedOrGlobalNamespace E Context N

/-- The matcher bound to `anonymous_ns`. -/
def AnonymousNamespace (E : Env) (Context : ClangMoveContext) (N : Node) : Bool :=
  N.D.DeclKind == Kind.Namespace && N.isAnonymous && InOldCC E Context N

/-- `InMovedClass`. -/
def InMovedClass (HasAnySymbolNames : String → Bool) (N : Node) : Bool :=
  hasOutermostEnclosingClass HasAnySymbolNames N

/-- `IsOldCCStaticDefinition` on functions and variables, bound to
`static_decls`. -/
def StaticDecls (E : Env) (Context : ClangMoveContext) (HasAnySymbolNames : String → Bool)
    (N : Node) : Bool :=
  (functionDecl N || N.D.DeclKind == Kind.Var)
    && N.isDefinition && !InMovedClass HasAnySymbolNames N
    && InOldCCNamedOrGlobalNamespace E Context N && N.isStaticStorageClass

/-- `MovedClass`, bound to `moved_class`. -/
def MovedClass (E : Env) (Context : ClangMoveContext) (HasAnySymbolNames : String → Bool)
    (N : Node) : Bool :=
  N.D.DeclKind == Kind.CXXRecord && InOldFiles E Context N
    && HasAnySymbolNames N.D.QualifiedName && N.isDefinition
    && hasNamespaceOrTranslationUnitContext N

/-- The matcher bound to `class_method`. -/
def ClassMethod (E : Env) (Context : ClangMoveContext) (HasAnySymbolNames : String → Bool)
    (N : Node) : Bool :=
  N.D.DeclKind == Kind.CXXMethod && InOldFiles E Context N
    && ofOutermostEnclosingClass HasAnySymbolNames N && N.isDefinition

/-- The matcher bound to `class_static_var_decl`. -/
def ClassStaticVarDecl (E : Env) (Context : ClangMoveContext)
    (HasAnySymbolNames : String → Bool) (N : Node) : Bool :=
  N.D.DeclKind == Kind.Var && InMovedClass HasAnySymbolNames N
    && InOldFiles E Context N && N.isDefinition && N.isStaticDataMember

/-- The matcher bound to `function`. -/
def MovedFunction (E : Env) (Context : ClangMoveContext) (HasAnySymbolNames : String → Bool)
    (N : Node) : Bool :=
  functionDecl N && InOldFiles E Context N && HasAnySymbolNames N.D.QualifiedName
    && hasNamespaceOrTranslationUnitContext N

/-- `ClangMoveTool::registerMatchers`: the matchers added to the finder, each
with the name it binds, in the order they are added.  In dump mode only the
first one is added; without requested symbols the matchers that need
`HasAnySymbolNames` are not added. -/
def registerMatchers (E : Env) (Context : ClangMoveContext) : List (Binding × (Node → Bool)) :=
  [(Binding.decls_in_header, AllDeclsInHeader E Context)]
    ++ (if Context.DumpDeclarations then []
        else
          [(Binding.fwd_decl, ForwardDeclsInOldHeader E Context),
           (Binding.using_decl, UsingDecls E Context),
           (Binding.anonymous_ns, AnonymousNamespace E Context)]
            ++ (match HasAnySymbolNames Context.Spec.Names with
                | none => []
                | some H =>
                  [(Binding.static_decls, StaticDecls E Context H),
                   (Binding.moved_class, MovedClass E Context H),
                   (Binding.class_method, ClassMethod E Context H),
                   (Binding.class_static_var_decl, ClassStaticVarDecl E Context H),
                   (Binding.function, MovedFunction E Context H)]))

/-- Whether `registerMatchers` writes `No symbols being moved.`. -/
def registerMatchersWarns (Context : ClangMoveContext) : Bool :=
  !Context.DumpDeclarations && (HasAnySymbolNames Context.Spec.Names).isNone

/-- The match finder on one node: every matcher that accepts the node calls
its callback, in the order the matchers were added. -/
def matchNode (Matchers : List (Binding × (Node → Bool))) (T : ClangMoveTool) (N : Node) :
    ClangMoveTool :=
  (Matchers.filter (fun M => M.2 N)).foldl (fun T M => onMatch T ⟨M.1, N⟩) T

/-- What the source-tree provider delivers: a declaration node, or an include
directive with the file name as written, whether it is angled, the search
path, the file entry name of the including file (`none` without a file entry)
and the range of the file name token. -/
inductive Event where
  | Declaration (N : Node)
  | Inclusion (FileName : String) (IsAngled : Bool) (SearchPath : String)
      (File : Option String) (FilenameRange : CharSourceRange)
  deriving DecidableEq, Repr

/-- One event: a declaration goes to the match finder, an include directive
to `FindAllIncludes::InclusionDirective`. -/
def onEvent (E : Env) (Matchers : List (Binding × (Node → Bool))) (T : ClangMoveTool) :
    Event → ClangMoveTool
  | Event.Declaration N => matchNode Matchers T N
  | Event.Inclusion FileName IsAngled SearchPath File FilenameRange =>
    match File with
    | some FileEntryName =>
      addIncludes E T FileName IsAngled SearchPath FileEntryName FilenameRange
    | none => T

/-- The tool after the stream of a translation unit: classification only. -/
def processStream (E : Env) (Context : ClangMoveContext) (Events : List Event) :
    ClangMoveTool :=
  Events.foldl (onEvent E (registerMatchers E Context))
    { ClangMoveTool.init Context with
      Errors := if registerMatchersWarns Context then 1 else 0 }

/-- The tool after the stream and the end of the translation unit. -/
def runTool (E : Env) (Context : ClangMoveContext) (Events : List Event) : ClangMoveTool :=
  onEndOfTranslationUnit E (processStream E Context Events)

/-- Whether a node matches a requested symbol: by its own qualified name, by
its outermost enclosing context being a requested class, or by the outermost
class of a method being requested. -/
def matchesRequested (Context : ClangMoveContext) (N : Node) : Bool :=
  match HasAnySymbolNames Context.Spec.Names with
  | none => false
  | some H =>
    H N.D.QualifiedName || InMovedClass H N || ofOutermostEnclosingClass H N

/-- Whether no declaration of the stream matches a requested symbol. -/
def Stripped (Context : ClangMoveContext) (Events : List Event) : Bool :=
  Events.all (fun Ev =>
    match Ev with
    | Event.Declaration N => !matchesRequested Context N
    | _ => true)

/-- Whether the callback of a binding leaves the list of removed declarations
alone: all bindings but those of the requested functions and classes, their
methods and static members. -/
def Binding.keepsRemovedDecls : Binding → Bool
  | Binding.class_method => false
  | Binding.class_static_var_decl => false
  | Binding.moved_class => false
  | Binding.function => false
  | _ => true

/-- Whether the callback of a binding may append to the moved list: all
bindings but `decls_in_header`. -/
def Binding.movesDecl : Binding → Bool
  | Binding.decls_in_header => false
  | _ => true

/-- The declarations a node stands for: the node itself and the template it is
the pattern of. -/
def Node.Decls (N : Node) : List Decl :=
  N.D :: N.DescribedTemplate.toList

/-- Whether a node is matched as an internal-linkage helper of the old
implementation file and also as a requested function or as a method of a
requested class. -/
def helperAlsoRequested (E : Env) (Context : ClangMoveContext) (N : Node) : Bool :=
  match HasAnySymbolNames Context.Spec.Names with
  | none => false
  | some H =>
    StaticDecls E Context H N && (MovedFunction E Context H N || ClassMethod E Context H N)

/-! ## Containment in order -/

/-- The texts occur in `s` as non-overlapping substrings, in the given order:
`s` is some text, the first of them, and a rest that contains the others. -/
def ContainsInOrder : List String → String → Prop
  | [], _ => True
  | t :: ts, s => ∃ pre rest, s = pre ++ t ++ rest ∧ ContainsInOrder ts rest

/-! ## Example inputs -/

/-- A source manager with the headers `old.h`, `two.h` and `fwd.h` and the
implementation files `old.cc` and `helper.cc`. -/
def exampleSM : SourceManager :=
  { Buffers := fun f =>
      if f = "old.h" then
        some ("namespace A \x7b\nnamespace B \x7b\nclass X \x7b\x7d;\nclass Y \x7b\x7d;\n\x7d\n"
          ++ "namespace C \x7b\nclass Z \x7b\x7d;\n\x7d\n\x7d\nnamespace D \x7b\nclass W \x7b\x7d;\n\x7d\n")
      else if f = "old.cc" then some "#include <old.h>\nusing std::x;\nint f() \x7b\x7d\n"
      else if f = "two.h" then some "class P \x7b\x7d; class Q \x7b\x7d;\nclass R \x7b\x7d;\n"
      else if f = "fwd.h" then some "class A;\nclass B;\nclass C \x7b\x7d;\nclass D;\n"
      else if f = "helper.cc" then
        some ("static int helper() \x7b return 0; \x7d\n"
          ++ "int g() \x7b return helper(); \x7d\n")
      else none
    MakeAbsolutePath := fun Path => Path
    getFile := fun Path =>
      if Path = "old.h" ∨ Path = "old.cc" ∨ Path = "two.h" ∨ Path = "fwd.h"
          ∨ Path = "helper.cc" then some Path
      else none }

/-- The class `A::B::X` of `old.h`. -/
def declABX : Decl :=
  ⟨1, Kind.CXXRecord, "A::B::X",
    [DeclContext.Namespace "B", DeclContext.Namespace "A", DeclContext.TranslationUnit],
    some "old.h", 28, 37, none⟩

/-- The class `A::B::Y` of `old.h`. -/
def declABY : Decl :=
  ⟨2, Kind.CXXRecord, "A::B::Y",
    [DeclContext.Namespace "B", DeclContext.Namespace "A", DeclContext.TranslationUnit],
    some "old.h", 40, 49, none⟩

/-- The class `A::C::Z` of `old.h`. -/
def declACZ : Decl :=
  ⟨3, Kind.CXXRecord, "A::C::Z",
    [DeclContext.Namespace "C", DeclContext.Namespace "A", DeclContext.TranslationUnit],
    some "old.h", 68, 77, none⟩

/-- The class `D::W` of `old.h`. -/
def declDW : Decl :=
  ⟨4, Kind.CXXRecord, "D::W",
    [DeclContext.Namespace "D", DeclContext.TranslationUnit],
    some "old.h", 98, 107, none⟩

/-- The declaration `using std::x;` on the second line of `old.cc`. -/
def declUsing : Decl :=
  ⟨5, Kind.Using, "std::x", [DeclContext.TranslationUnit], some "old.cc", 17, 29, none⟩

/-- The function `f` on the third line of `old.cc`. -/
def declF : Decl :=
  ⟨6, Kind.Function, "f", [DeclContext.TranslationUnit], some "old.cc", 31, 40, none⟩

/-- The class `P`, first on the only line of `two.h`. -/
def declP : Decl :=
  ⟨7, Kind.CXXRecord, "P", [DeclContext.TranslationUnit], some "two.h", 0, 9, none⟩

/-- The class `Q`, second on the only line of `two.h`. -/
def declQ : Decl :=
  ⟨8, Kind.CXXRecord, "Q", [DeclContext.TranslationUnit], some "two.h", 12, 21, none⟩

/-- The class `R` on the second line of `two.h`. -/
def declR : Decl :=
  ⟨9, Kind.CXXRecord, "R", [DeclContext.TranslationUnit], some "two.h", 24, 33, none⟩

/-- The collaborators of the examples: paths are already absolute, the cleanup
returns the replacements as they are, `add` is the reference `addStrict`. -/
def exampleEnv : Env :=
  { SM := exampleSM
    make_absolute := fun _ Path => Path
    path_append := fun SearchPath Header =>
      if SearchPath.isEmpty then Header else SearchPath ++ "/" ++ Header
    cleanupAroundReplacements := fun _ Replaces _ _ => some Replaces
    add := Replacements.addStrict }

/-- Moving `A::B::X` from `old.h`/`old.cc` to `new.h`/`new.cc`. -/
def exampleContext : ClangMoveContext :=
  { Spec := ⟨["A::B::X"], "old.h", "old.cc", "new.h", "new.cc", false, false⟩
    FileToReplacements := []
    OriginalRunningDirectory := "/"
    FallbackStyle := "llvm"
    DumpDeclarations := false }

/-- Moving `P`, `Q` and `f` from `two.h`/`old.cc` to `new.h`/`new.cc`. -/
def twoContext : ClangMoveContext :=
  { Spec := ⟨["P", "Q", "f"], "two.h", "old.cc", "new.h", "new.cc", false, false⟩
    FileToReplacements := []
    OriginalRunningDirectory := "/"
    FallbackStyle := "llvm"
    DumpDeclarations := false }

/-- The tool after the matches of a translation unit in which the class
`A::B::X` of `old.h` is moved, the class `A::B::Y` stays in `old.h`, and
`using std::x;` of `old.cc` is carried along. -/
def exampleTool : ClangMoveTool :=
  onMatches (ClangMoveTool.init exampleContext)
    [⟨Binding.decls_in_header, { D := declABX }⟩,
     ⟨Binding.moved_class, { D := declABX }⟩,
     ⟨Binding.decls_in_header, { D := declABY }⟩,
     ⟨Binding.using_decl, { D := declUsing }⟩]

/-- The tool after the matches of a translation unit in which the classes `P`
and `Q`, written on one line of `two.h`, and the function `f` of `old.cc` are
moved, and the class `R` stays in `two.h`. -/
def twoTool : ClangMoveTool :=
  onMatches (ClangMoveTool.init twoContext)
    [⟨Binding.decls_in_header, { D := declP }⟩,
     ⟨Binding.moved_class, { D := declP }⟩,
     ⟨Binding.decls_in_header, { D := declQ }⟩,
     ⟨Binding.moved_class, { D := declQ }⟩,
     ⟨Binding.decls_in_header, { D := declR }⟩,
     ⟨Binding.function, { D := declF }⟩]

/-- Moving every class of `old.h` and the function `f` of `old.cc` to
`new.h`/`new.cc`. -/
def wholeContext : ClangMoveContext :=
  { Spec := ⟨["A::B::X", "A::B::Y", "A::C::Z", "D::W", "f"],
      "old.h", "old.cc", "new.h", "new.cc", false, false⟩
    FileToReplacements := []
    OriginalRunningDirectory := "/"
    FallbackStyle := "llvm"
    DumpDeclarations := false }

/-- The matches of a translation unit in which all four classes of `old.h`
and the function `f` of `old.cc` are moved. -/
def wholeMatches : List MatchResult :=
  [⟨Binding.decls_in_header, { D := declABX }⟩, ⟨Binding.moved_class, { D := declABX }⟩,
   ⟨Binding.decls_in_header, { D := declABY }⟩, ⟨Binding.moved_class, { D := declABY }⟩,
   ⟨Binding.decls_in_header, { D := declACZ }⟩, ⟨Binding.moved_class, { D := declACZ }⟩,
   ⟨Binding.decls_in_header, { D := declDW }⟩, ⟨Binding.moved_class, { D := declDW }⟩,
   ⟨Binding.function, { D := declF }⟩]

/-- The tool after `wholeMatches` when no include of the old header was seen. -/
def wholeTool : ClangMoveTool :=
  onMatches (ClangMoveTool.init wholeContext) wholeMatches

/-- The tool after the directive `#include <old.h>` of `old.cc`, whose file
name token `<old.h>` is at offsets 9 to 16, and `wholeMatches`. -/
def wholeToolInclude : ClangMoveTool :=
  onMatches
    (addIncludes exampleEnv (ClangMoveTool.init wholeContext) "old.h" true "" "old.cc"
      ⟨"old.cc", 9, 16⟩)
    wholeMatches

/-- The definition of the class `A::B::Y` in `old.h`, as a node. -/
def nodeABY : Node :=
  { D := declABY, isDefinition := true, Parent := DeclContext.Namespace "B" }

/-- The declaration `using std::x;` of `old.cc`, as a node. -/
def nodeUsing : Node :=
  { D := declUsing }

/-- The stream of `old.h`/`old.cc` after `A::B::X` has been taken out: the
class `A::B::Y` and `using std::x;` are left. -/
def strippedEvents : List Event :=
  [Event.Declaration nodeABY,
   Event.Inclusion "old.h" true "" (some "old.cc") ⟨"old.cc", 9, 16⟩,
   Event.Declaration nodeUsing]

/-- The definition of the class `A::B::X` in `old.h`, as a node. -/
def nodeABX : Node :=
  { D := declABX, isDefinition := true, Parent := DeclContext.Namespace "B" }

/-- Dumping the declarations of `old.h`. -/
def dumpContext : ClangMoveContext :=
  { exampleContext with DumpDeclarations := true }

/-- Moving nothing: no symbol is requested. -/
def noNamesContext : ClangMoveContext :=
  { Spec := ⟨[], "old.h", "old.cc", "new.h", "new.cc", false, false⟩
    FileToReplacements := []
    OriginalRunningDirectory := "/"
    FallbackStyle := "llvm"
    DumpDeclarations := false }

/-- The stream of `old.h`/`old.cc` with the classes `A::B::X` and `A::B::Y`,
the include of the old header and `using std::x;`. -/
def exampleEvents : List Event :=
  [Event.Declaration nodeABX,
   Event.Declaration nodeABY,
   Event.Inclusion "old.h" true "" (some "old.cc") ⟨"old.cc", 9, 16⟩,
   Event.Declaration nodeUsing]

/-- The forward declaration `class A;` of `fwd.h`. -/
def declFwdA : Decl :=
  ⟨10, Kind.CXXRecord, "A", [DeclContext.TranslationUnit], some "fwd.h", 0, 6, none⟩

/-- The forward declaration `class B;` of `fwd.h`. -/
def declFwdB : Decl :=
  ⟨11, Kind.CXXRecord, "B", [DeclContext.TranslationUnit], some "fwd.h", 9, 15, none⟩

/-- The definition of the class `C` in `fwd.h`. -/
def declC : Decl :=
  ⟨12, Kind.CXXRecord, "C", [DeclContext.TranslationUnit], some "fwd.h", 18, 27, none⟩

/-- The forward declaration `class D;` of `fwd.h`. -/
def declFwdD : Decl :=
  ⟨13, Kind.CXXRecord, "D", [DeclContext.TranslationUnit], some "fwd.h", 30, 36, none⟩

/-- Moving the class `C` from `fwd.h` to `new.h`. -/
def fwdContext : ClangMoveContext :=
  { Spec := ⟨["C"], "fwd.h", "", "new.h", "", false, false⟩
    FileToReplacements := []
    OriginalRunningDirectory := "/"
    FallbackStyle := "llvm"
    DumpDeclarations := false }

/-- The stream of `fwd.h`: two forward declarations, the definition of `C`,
one more forward declaration. -/
def fwdEvents : List Event :=
  [Event.Declaration { D := declFwdA },
   Event.Declaration { D := declFwdB },
   Event.Declaration { D := declC, isDefinition := true },
   Event.Declaration { D := declFwdD }]

/-- The static function `helper` on the first line of `helper.cc`. -/
def declHelper : Decl :=
  ⟨14, Kind.Function, "helper", [DeclContext.TranslationUnit], some "helper.cc", 0, 32, none⟩

/-- The definition of `helper`, as a node. -/
def nodeHelper : Node :=
  { D := declHelper, isDefinition := true, isStaticStorageClass := true }

/-- Moving the function `helper` from `old.h`/`helper.cc` to
`new.h`/`new.cc`. -/
def helperContext : ClangMoveContext :=
  { Spec := ⟨["helper"], "old.h", "helper.cc", "new.h", "new.cc", false, false⟩
    FileToReplacements := []
    OriginalRunningDirectory := "/"
    FallbackStyle := "llvm"
    DumpDeclarations := false }

/-- The stream of `old.h`/`helper.cc`: the class `A::B::Y`, which stays in
`old.h`, and the static function `helper`. -/
def helperEvents : List Event :=
  [Event.Declaration nodeABY, Event.Declaration nodeHelper]

/-- The stream of a translation unit in which only `using std::x;` of
`old.cc` is delivered. -/
def usingOnlyEvents : List Event :=
  [Event.Declaration nodeUsing]

/-- The definition of the class `A::C::Z` in `old.h`, as a node. -/
def nodeACZ : Node :=
  { D := declACZ, isDefinition := true, Parent := DeclContext.Namespace "C" }

/-- The definition of the function `f` in `old.cc`, as a node. -/
def nodeF : Node :=
  { D := declF, isDefinition := true }

/-- Moving the classes `A::B::X` and `A::B::Y` and the function `f` from
`old.h`/`old.cc` to `new.h`/`new.cc`. -/
def routedContext : ClangMoveContext :=
  { Spec := ⟨["A::B::X", "A::B::Y", "f"], "old.h", "old.cc", "new.h", "new.cc", false, false⟩
    FileToReplacements := []
    OriginalRunningDirectory := "/"
    FallbackStyle := "llvm"
    DumpDeclarations := false }

/-- The tool after the stream of `old.h`/`old.cc`: the classes `A::B::X` and
`A::B::Y` and the function `f` are requested, the class `A::C::Z` stays, and
`using std::x;` is carried along. -/
def routedTool : ClangMoveTool :=
  processStream exampleEnv routedContext
    [Event.Inclusion "old.h" true "" (some "old.cc") ⟨"old.cc", 9, 16⟩,
     Event.Declaration nodeABX,
     Event.Declaration nodeABY,
     Event.Declaration nodeACZ,
     Event.Declaration nodeUsing,
     Event.Declaration nodeF]

/-- A source manager with a guarded header `old.h` holding the class `X`, a
header `other.h` that includes `"old.h"`, and the implementation file `old.cc`
that includes `<old.h>` and `"other.h"` and defines the function `f`. -/
def guardedSM : SourceManager :=
  { Buffers := fun f =>
      if f = "old.h" then some "#pragma once\nclass X \x7b\x7d;\n"
      else if f = "other.h" then some "#pragma once\n#include \"old.h\"\n"
      else if f = "old.cc" then
        some "#include <old.h>\n#include \"other.h\"\nint f() \x7b\x7d\n"
      else none
    MakeAbsolutePath := fun Path => Path
    getFile := fun Path =>
      if Path = "old.h" ∨ Path = "other.h" ∨ Path = "old.cc" then some Path else none }

/-- The environment of `guardedSM`. -/
def guardedEnv : Env :=
  { exampleEnv with SM := guardedSM }

/-- The class `X` of the guarded `old.h`. -/
def declGX : Decl :=
  ⟨21, Kind.CXXRecord, "X", [DeclContext.TranslationUnit], some "old.h", 13, 22, none⟩

/-- The function `f` on the third line of the `old.cc` of `guardedSM`. -/
def declGF : Decl :=
  ⟨22, Kind.Function, "f", [DeclContext.TranslationUnit], some "old.cc", 36, 45, none⟩

/-- Moving the class `X` and the function `f`, all there is in
`old.h`/`old.cc`, to `new.h`/`new.cc`. -/
def guardedContext : ClangMoveContext :=
  { Spec := ⟨["X", "f"], "old.h", "old.cc", "new.h", "new.cc", false, false⟩
    FileToReplacements := []
    OriginalRunningDirectory := "/"
    FallbackStyle := "llvm"
    DumpDeclarations := false }

/-- The stream of the translation unit of `old.cc` in `guardedSM`: the
directive `#include <old.h>` of `old.cc` (file name token at offsets 9 to 16),
the directive `#include "other.h"` of `old.cc` (26 to 35), the directive
`#include "old.h"` of `other.h` (22 to 29), then the class `X` and the
function `f`. -/
def guardedEvents : List Event :=
  [Event.Inclusion "old.h" true "" (some "old.cc") ⟨"old.cc", 9, 16⟩,
   Event.Inclusion "other.h" false "" (some "old.cc") ⟨"old.cc", 26, 35⟩,
   Event.Inclusion "old.h" false "" (some "other.h") ⟨"other.h", 22, 29⟩,
   Event.Declaration { D := declGX, isDefinition := true },
   Event.Declaration { D := declGF, isDefinition := true }]

/-! ## Lemmas on the emitter -/

theorem skipCommonPrefix_take (Cur DeclNS : List String) :
    Cur.take (skipCommonPrefix Cur DeclNS) = DeclNS.take (skipCommonPrefix Cur DeclNS) := by
  induction Cur generalizing DeclNS with
  | nil => simp [skipCommonPrefix]
  | cons c cs ih =>
    cases DeclNS with
    | nil => simp [skipCommonPrefix]
    | cons d ds =>
      by_cases h : c = d
      · subst h
        simp [skipCommonPrefix, ih ds]
      · simp [skipCommonPrefix, h]

theorem skipCommonPrefix_next (Cur DeclNS : List String) :
    Cur.take (skipCommonPrefix Cur DeclNS) ++ DeclNS.drop (skipCommonPrefix Cur DeclNS)
      = DeclNS := by
  rw [skipCommonPrefix_take, List.take_append_drop]

theorem emitPieces_cons (D : Decl) (rest : List Decl) (Cur : List String) :
    emitPieces (D :: rest) Cur
      = headPieces Cur (getNamespaces D)
          ++ Piece.Source D :: emitPieces rest (getNamespaces D) := by
  simp only [emitPieces, headPieces, skipCommonPrefix_next, List.append_assoc,
    List.singleton_append]

theorem openStack_append (St : List String) (ps qs : List Piece) :
    openStack St (ps ++ qs) = openStack (openStack St ps) qs := by
  simp [openStack, List.foldl_append]

theorem openStack_closes (A B : List String) :
    openStack (A ++ B) (B.reverse.map Piece.Close) = A := by
  induction B using List.reverseRecOn with
  | nil => simp [openStack]
  | append_singleton B x ih =>
    simp only [List.reverse_append, List.reverse_singleton, List.singleton_append,
      List.map_cons, openStack, List.foldl_cons, stackStep]
    rw [← List.append_assoc, List.dropLast_concat]
    exact ih

theorem openStack_opens (A B : List String) :
    openStack A (B.map Piece.Open) = A ++ B := by
  induction B generalizing A with
  | nil => simp [openStack]
  | cons b B ih =>
    simp only [List.map_cons, openStack, List.foldl_cons, stackStep]
    have := ih (A ++ [b])
    simp only [openStack] at this
    rw [this]
    simp

theorem openStack_headPieces (Cur DeclNS : List String) :
    openStack Cur (headPieces Cur DeclNS) = DeclNS := by
  have hb : ∀ (St : List String) (P : Prop) [Decidable P],
      openStack St (if P then [Piece.Text "\n"] else []) = St := by
    intro St P _
    by_cases h : P <;> simp [h, openStack, stackStep]
  simp only [headPieces, openStack_append]
  rw [hb, hb, openStack_opens]
  conv => lhs; lhs; lhs; rw [← List.take_append_drop (skipCommonPrefix Cur DeclNS) Cur]
  rw [openStack_closes, skipCommonPrefix_next]

theorem sourceStacks_append_of_nil (St : List String) (ps qs : List Piece)
    (h : ∀ p ∈ ps, p.isSource = false) :
    sourceStacks St (ps ++ qs) = sourceStacks (openStack St ps) qs := by
  induction ps generalizing St with
  | nil => simp [openStack]
  | cons p ps ih =>
    have hp := h p (List.mem_cons_self _ _)
    have hps : ∀ q ∈ ps, q.isSource = false := fun q hq => h q (List.mem_cons_of_mem _ hq)
    cases p with
    | Source D => simp [Piece.isSource] at hp
    | Text s => simpa [sourceStacks, openStack, stackStep] using ih _ hps
    | Open NS => simpa [sourceStacks, openStack, stackStep] using ih _ hps
    | Close NS => simpa [sourceStacks, openStack, stackStep] using ih _ hps

theorem headPieces_not_source (Cur DeclNS : List String) :
    ∀ p ∈ headPieces Cur DeclNS, p.isSource = false := by
  intro p hp
  simp only [headPieces, List.mem_append, List.mem_map] at hp
  rcases hp with ((⟨a, _, rfl⟩ | hp) | ⟨a, _, rfl⟩) | hp
  · rfl
  · split at hp
    · simp at hp; subst hp; rfl
    · simp at hp
  · rfl
  · split at hp
    · simp at hp; subst hp; rfl
    · simp at hp

theorem sourceStacks_emitPieces (Decls : List Decl) (Cur : List String) :
    sourceStacks Cur (emitPieces Decls Cur)
      = Decls.map (fun D => (D, getNamespaces D)) := by
  induction Decls generalizing Cur with
  | nil =>
    have : sourceStacks Cur (emitPieces [] Cur ++ []) = sourceStacks (openStack Cur (emitPieces [] Cur)) [] := by
      apply sourceStacks_append_of_nil
      intro p hp
      simp only [emitPieces, List.mem_map] at hp
      obtain ⟨a, _, rfl⟩ := hp
      rfl
    simpa [sourceStacks] using this
  | cons D rest ih =>
    rw [emitPieces_cons, sourceStacks_append_of_nil _ _ _ (headPieces_not_source _ _),
      openStack_headPieces]
    simp [sourceStacks, ih]


theorem render_append (SM : SourceManager) (ps qs : List Piece) :
    render SM (ps ++ qs) = render SM ps ++ render SM qs := by
  induction ps with
  | nil => simp [render]
  | cons p ps ih => simp [render, ih, String.append_assoc]

theorem render_map_Close (SM : SourceManager) (l : List String) :
    render SM (l.map Piece.Close) = closeLines l := by
  induction l with
  | nil => simp [render, closeLines]
  | cons a l ih => simp [render, closeLines, Piece.render, ih]

theorem render_map_Open (SM : SourceManager) (l : List String) :
    render SM (l.map Piece.Open) = openLines l := by
  induction l with
  | nil => simp [render, openLines]
  | cons a l ih => simp [render, openLines, Piece.render, ih]

theorem render_map_Text (SM : SourceManager) (l : List String) :
    render SM (l.map Piece.Text) = appendAll l := by
  induction l with
  | nil => simp [render, appendAll]
  | cons a l ih => simp [render, appendAll, Piece.render, ih]

theorem render_singleton (SM : SourceManager) (p : Piece) :
    render SM [p] = p.render SM := by
  simp [render]

theorem emitDecls_eq_render (SM : SourceManager) (Decls : List Decl)
    (Cur : List String) :
    emitDecls SM Decls Cur = render SM (emitPieces Decls Cur) := by
  induction Decls generalizing Cur with
  | nil => simp [emitDecls, emitPieces, render_map_Close, ← List.map_reverse]
  | cons D rest ih =>
    simp only [emitDecls, emitPieces, render_append, render_map_Close,
      render_map_Open, ih, render_singleton, Piece.render]
    cases h1 : ((List.drop (skipCommonPrefix Cur (getNamespaces D)) Cur).reverse).isEmpty <;>
      cases h2 : (List.drop (skipCommonPrefix Cur (getNamespaces D)) (getNamespaces D)).isEmpty <;>
      simp [render, Piece.render]

theorem NewCode_eq_render (SM : SourceManager) (Includes : List String)
    (Decls : List Decl) (FileName : String) (IsHeader : Bool)
    (OldHeaderInclude : String) :
    NewCode SM Includes Decls FileName IsHeader OldHeaderInclude
      = render SM (codePieces Includes Decls FileName IsHeader OldHeaderInclude) := by
  simp only [NewCode, codePieces, prologuePieces, epiloguePieces, render_append,
    render_map_Text, emitDecls_eq_render]
  cases IsHeader <;> cases h : Includes.isEmpty <;>
    simp [render, Piece.render, String.append_assoc]

theorem sourceStacks_texts (St : List String) (ps : List Piece)
    (h : ∀ p ∈ ps, ∃ s, p = Piece.Text s) :
    sourceStacks St ps = [] ∧ openStack St ps = St := by
  induction ps with
  | nil => simp [sourceStacks, openStack]
  | cons p ps ih =>
    obtain ⟨s, rfl⟩ := h p (List.mem_cons_self _ _)
    have := ih (fun q hq => h q (List.mem_cons_of_mem _ hq))
    simpa [sourceStacks, openStack, stackStep] using this

theorem prologuePieces_texts (Includes : List String) (FileName : String)
    (IsHeader : Bool) (OldHeaderInclude : String) :
    ∀ p ∈ prologuePieces Includes FileName IsHeader OldHeaderInclude,
      ∃ s, p = Piece.Text s := by
  intro p hp
  simp only [prologuePieces, List.mem_append, List.mem_map] at hp
  rcases hp with ((hp | hp) | ⟨a, _, rfl⟩) | hp
  · split at hp
    · simp at hp
      rcases hp with rfl | rfl <;> exact ⟨_, rfl⟩
    · simp at hp
  · simp at hp
    exact ⟨_, hp⟩
  · exact ⟨_, rfl⟩
  · split at hp
    · simp at hp
      exact ⟨_, hp⟩
    · simp at hp

theorem epiloguePieces_texts (FileName : String) (IsHeader : Bool) :
    ∀ p ∈ epiloguePieces FileName IsHeader, ∃ s, p = Piece.Text s := by
  intro p hp
  simp only [epiloguePieces] at hp
  split at hp
  · simp at hp
    exact ⟨_, hp⟩
  · simp at hp

theorem sourceStacks_append_texts (St : List String) (ps qs : List Piece)
    (h : ∀ p ∈ qs, ∃ s, p = Piece.Text s) :
    sourceStacks St (ps ++ qs) = sourceStacks St ps := by
  induction ps generalizing St with
  | nil => simpa using (sourceStacks_texts St qs h).1
  | cons p ps ih =>
    cases p <;> simp [sourceStacks, ih]

theorem not_source_of_text (ps : List Piece) (h : ∀ p ∈ ps, ∃ s, p = Piece.Text s) :
    ∀ p ∈ ps, p.isSource = false := by
  intro p hp
  obtain ⟨s, rfl⟩ := h p hp
  rfl

/-! ### Nesting of the namespace lines -/

theorem replay_append (ps qs : List Piece) (St : List String) :
    replay (ps ++ qs) St = (replay ps St).bind (replay qs) := by
  induction ps generalizing St with
  | nil => simp [replay]
  | cons p ps ih =>
    cases p with
    | Text s => simp [replay, ih]
    | Source D => simp [replay, ih]
    | Open NS => simp [replay, ih]
    | Close NS =>
      by_cases h : St.getLast? = some NS <;> simp [replay, h, ih]

theorem replay_texts (St : List String) (ps : List Piece)
    (h : ∀ p ∈ ps, ∃ s, p = Piece.Text s) : replay ps St = some St := by
  induction ps with
  | nil => simp [replay]
  | cons p ps ih =>
    obtain ⟨s, rfl⟩ := h p (List.mem_cons_self _ _)
    simpa [replay] using ih (fun q hq => h q (List.mem_cons_of_mem _ hq))

theorem replay_closes (A B : List String) :
    replay (B.reverse.map Piece.Close) (A ++ B) = some A := by
  induction B using List.reverseRecOn with
  | nil => simp [replay]
  | append_singleton B x ih =>
    simp only [List.reverse_append, List.reverse_singleton, List.singleton_append,
      List.map_cons, replay]
    rw [← List.append_assoc, List.dropLast_concat]
    simpa using ih

theorem replay_opens (A B : List String) :
    replay (B.map Piece.Open) A = some (A ++ B) := by
  induction B generalizing A with
  | nil => simp [replay]
  | cons b B ih => simp [replay, ih]

theorem replay_headPieces (Cur DeclNS : List String) :
    replay (headPieces Cur DeclNS) Cur = some DeclNS := by
  have hb : ∀ (St : List String) (P : Prop) [Decidable P],
      replay (if P then [Piece.Text "\n"] else []) St = some St := by
    intro St P _
    by_cases h : P <;> simp [h, replay]
  have hc : replay (((Cur.drop (skipCommonPrefix Cur DeclNS)).reverse).map Piece.Close) Cur
      = some (Cur.take (skipCommonPrefix Cur DeclNS)) := by
    conv => lhs; rhs; rw [← List.take_append_drop (skipCommonPrefix Cur DeclNS) Cur]
    exact replay_closes _ _
  simp only [headPieces, replay_append, hc, hb, replay_opens, Option.some_bind,
    skipCommonPrefix_next]

theorem replay_emitPieces (Decls : List Decl) (Cur : List String) :
    replay (emitPieces Decls Cur) Cur = some [] := by
  induction Decls generalizing Cur with
  | nil => simpa [emitPieces] using replay_closes [] Cur
  | cons D rest ih =>
    rw [emitPieces_cons, replay_append, replay_headPieces]
    simpa [replay] using ih (getNamespaces D)

theorem replay_count (ps : List Piece) (St St' : List String)
    (h : replay ps St = some St') :
    St.length + (ps.filter Piece.isOpen).length
      = St'.length + (ps.filter Piece.isClose).length := by
  induction ps generalizing St with
  | nil =>
    simp [replay] at h
    simp [h]
  | cons p ps ih =>
    cases p with
    | Text s =>
      have := ih St (by simpa [replay] using h)
      simpa [Piece.isOpen, Piece.isClose] using this
    | Source D =>
      have := ih St (by simpa [replay] using h)
      simpa [Piece.isOpen, Piece.isClose] using this
    | Open NS =>
      have := ih (St ++ [NS]) (by simpa [replay] using h)
      simp [Piece.isOpen, Piece.isClose] at this ⊢
      omega
    | Close NS =>
      by_cases hl : St.getLast? = some NS
      · have := ih St.dropLast (by simpa [replay, hl] using h)
        have hne : St ≠ [] := by
          intro hnil
          simp [hnil] at hl
        have hlen : St.dropLast.length + 1 = St.length := by
          rw [List.length_dropLast]
          have : 0 < St.length := List.length_pos.mpr hne
          omega
        simp [Piece.isOpen, Piece.isClose] at this ⊢
        omega
      · simp [replay, hl] at h

theorem emitPieces_last (Ds : List Decl) (D : Decl) (Cur : List String) :
    ∃ pre, emitPieces (Ds ++ [D]) Cur
      = pre ++ Piece.Source D :: (getNamespaces D).reverse.map Piece.Close := by
  induction Ds generalizing Cur with
  | nil =>
    refine ⟨headPieces Cur (getNamespaces D), ?_⟩
    rw [List.nil_append, emitPieces_cons]
    simp [emitPieces]
  | cons D0 rest ih =>
    obtain ⟨pre, hpre⟩ := ih (getNamespaces D0)
    refine ⟨headPieces Cur (getNamespaces D0) ++ Piece.Source D0 :: pre, ?_⟩
    rw [List.cons_append, emitPieces_cons, hpre]
    simp

theorem namespaceLines_append (ps qs : List Piece) :
    namespaceLines (ps ++ qs) = namespaceLines ps ++ namespaceLines qs := by
  simp [namespaceLines]

theorem namespaceLines_texts (ps : List Piece) (h : ∀ p ∈ ps, ∃ s, p = Piece.Text s) :
    namespaceLines ps = [] := by
  simp only [namespaceLines, List.filter_eq_nil_iff]
  intro p hp
  obtain ⟨s, rfl⟩ := h p hp
  simp [Piece.isOpen, Piece.isClose]

/-! ## The namespace-aware emitter: results -/

/-- C1. In the text built by `createInsertedReplacements` (the rendering of
its pieces), the declarations whose source text is appended are exactly the
given declarations in order, and at the point where each one is appended the
namespaces opened and not yet closed, outer to inner, are exactly the
namespace path `getNamespaces` returns for it. -/
theorem createInsertedReplacements_namespace_path (SM : SourceManager)
    (Includes : List String) (Decls : List Decl) (FileName : String)
    (IsHeader : Bool) (OldHeaderInclude : String) :
    createInsertedReplacements SM Includes Decls FileName IsHeader OldHeaderInclude
        = [⟨FileName, 0, 0,
            render SM (codePieces Includes Decls FileName IsHeader OldHeaderInclude)⟩]
      ∧ sourceStacks [] (codePieces Includes Decls FileName IsHeader OldHeaderInclude)
        = Decls.map (fun D => (D, getNamespaces D)) := by
  refine ⟨by simp [createInsertedReplacements, NewCode_eq_render], ?_⟩
  have hpro := prologuePieces_texts Includes FileName IsHeader OldHeaderInclude
  simp only [codePieces]
  rw [sourceStacks_append_texts _ _ _ (epiloguePieces_texts FileName IsHeader),
    sourceStacks_append_of_nil _ _ _ (not_source_of_text _ hpro),
    (sourceStacks_texts [] _ hpro).2]
  exact sourceStacks_emitPieces Decls []

/-- C2, as the code behaves. For four declarations with namespace paths
[A,B], [A,B], [A,C], [D] the text built by `createInsertedReplacements` is the
rendering of its pieces, and the namespace lines among them are: open A,
open B, close B, open C, close C, close A, open D, close D.  The namespace A
shared by the second and third path stays open. -/
theorem createInsertedReplacements_four_paths (SM : SourceManager)
    (Includes : List String) (D1 D2 D3 D4 : Decl) (FileName : String) (IsHeader : Bool)
    (OldHeaderInclude : String)
    (h1 : getNamespaces D1 = ["A", "B"]) (h2 : getNamespaces D2 = ["A", "B"])
    (h3 : getNamespaces D3 = ["A", "C"]) (h4 : getNamespaces D4 = ["D"]) :
    createInsertedReplacements SM Includes [D1, D2, D3, D4] FileName IsHeader
        OldHeaderInclude
        = [⟨FileName, 0, 0,
            render SM (codePieces Includes [D1, D2, D3, D4] FileName IsHeader
              OldHeaderInclude)⟩]
      ∧ namespaceLines
          (codePieces Includes [D1, D2, D3, D4] FileName IsHeader OldHeaderInclude)
        = [Piece.Open "A", Piece.Open "B", Piece.Close "B", Piece.Open "C",
           Piece.Close "C", Piece.Close "A", Piece.Open "D", Piece.Close "D"] := by
  refine ⟨by simp [createInsertedReplacements, NewCode_eq_render], ?_⟩
  simp only [codePieces, namespaceLines_append]
  rw [namespaceLines_texts _ (prologuePieces_texts _ _ _ _),
    namespaceLines_texts _ (epiloguePieces_texts _ _)]
  simp [emitPieces, h1, h2, h3, h4, skipCommonPrefix, namespaceLines, Piece.isOpen,
    Piece.isClose]

/-- Witness of `createInsertedReplacements_four_paths` on four classes of
`old.h`. -/
theorem createInsertedReplacements_four_paths_witness :
    getNamespaces declABX = ["A", "B"] ∧ getNamespaces declABY = ["A", "B"]
      ∧ getNamespaces declACZ = ["A", "C"] ∧ getNamespaces declDW = ["D"]
      ∧ namespaceLines (codePieces [] [declABX, declABY, declACZ, declDW] "new.h" true "")
        = [Piece.Open "A", Piece.Open "B", Piece.Close "B", Piece.Open "C",
           Piece.Close "C", Piece.Close "A", Piece.Open "D", Piece.Close "D"] :=
  ⟨by decide, by decide, by decide, by decide,
    (createInsertedReplacements_four_paths exampleSM [] declABX declABY declACZ declDW
      "new.h" true "" (by decide) (by decide) (by decide) (by decide)).2⟩

/-- C2, as stated, fails: on four classes with the namespace paths [A,B],
[A,B], [A,C], [D] the emitted namespace lines are not the sequence open A,
open B, close B, close A, open A, open C, close C, close A, open D, close D;
in the emitted text `namespace C` follows the closing line of B directly. -/
theorem createInsertedReplacements_four_paths_counterexample :
    getNamespaces declABX = ["A", "B"] ∧ getNamespaces declABY = ["A", "B"]
      ∧ getNamespaces declACZ = ["A", "C"] ∧ getNamespaces declDW = ["D"]
      ∧ namespaceLines (codePieces [] [declABX, declABY, declACZ, declDW] "new.cc" false "")
        ≠ [Piece.Open "A", Piece.Open "B", Piece.Close "B", Piece.Close "A",
           Piece.Open "A", Piece.Open "C", Piece.Close "C", Piece.Close "A",
           Piece.Open "D", Piece.Close "D"]
      ∧ createInsertedReplacements exampleSM [] [declABX, declABY, declACZ, declDW]
          "new.cc" false ""
        = [⟨"new.cc", 0, 0,
            "namespace A \x7b\nnamespace B \x7b\nclass X \x7b\x7d;\n\nclass Y \x7b\x7d;\n"
              ++ "\x7d // namespace B\n\nnamespace C \x7b\nclass Z \x7b\x7d;\n"
              ++ "\x7d // namespace C\n\x7d // namespace A\n\n"
              ++ "namespace D \x7b\nclass W \x7b\x7d;\n\x7d // namespace D\n"⟩] := by
  decide

/-- C4. The namespace lines emitted by `createInsertedReplacements` are
properly nested and balanced: replaying them from no open namespace, every
closing line names the innermost namespace still open and none is left open at
the end; there are as many closing lines as opening lines; and after the
source text of the last declaration come the closing lines of its namespaces,
innermost first, followed only by the end of the include guard. -/
theorem createInsertedReplacements_balanced (SM : SourceManager)
    (Includes : List String) (Decls : List Decl) (FileName : String)
    (IsHeader : Bool) (OldHeaderInclude : String) :
    createInsertedReplacements SM Includes Decls FileName IsHeader OldHeaderInclude
        = [⟨FileName, 0, 0,
            render SM (codePieces Includes Decls FileName IsHeader OldHeaderInclude)⟩]
      ∧ replay (codePieces Includes Decls FileName IsHeader OldHeaderInclude) [] = some []
      ∧ ((codePieces Includes Decls FileName IsHeader OldHeaderInclude).filter
            Piece.isClose).length
          = ((codePieces Includes Decls FileName IsHeader OldHeaderInclude).filter
            Piece.isOpen).length
      ∧ ∀ (Ds : List Decl) (D : Decl), Decls = Ds ++ [D] →
          ∃ pre, codePieces Includes Decls FileName IsHeader OldHeaderInclude
            = pre ++ Piece.Source D :: ((getNamespaces D).reverse.map Piece.Close
                ++ epiloguePieces FileName IsHeader) := by
  have hreplay : replay (codePieces Includes Decls FileName IsHeader OldHeaderInclude) []
      = some [] := by
    simp only [codePieces, replay_append,
      replay_texts _ _ (prologuePieces_texts Includes FileName IsHeader OldHeaderInclude),
      Option.some_bind, replay_emitPieces,
      replay_texts _ _ (epiloguePieces_texts FileName IsHeader)]
  refine ⟨by simp [createInsertedReplacements, NewCode_eq_render], hreplay, ?_, ?_⟩
  · have := replay_count _ _ _ hreplay
    simpa using this.symm
  · intro Ds D hD
    subst hD
    obtain ⟨pre, hpre⟩ := emitPieces_last Ds D []
    refine ⟨prologuePieces Includes FileName IsHeader OldHeaderInclude ++ pre, ?_⟩
    simp [codePieces, hpre]

/-- Witness of `createInsertedReplacements_balanced` on four classes. -/
theorem createInsertedReplacements_balanced_witness :
    ∃ pre, codePieces [] [declABX, declABY, declACZ, declDW] "new.h" true ""
      = pre ++ Piece.Source declDW :: ((getNamespaces declDW).reverse.map Piece.Close
          ++ epiloguePieces "new.h" true) :=
  (createInsertedReplacements_balanced exampleSM [] [declABX, declABY, declACZ, declDW]
    "new.h" true "").2.2.2 [declABX, declABY, declACZ] declDW rfl

/-! ### Declaration texts in the emitted code -/

theorem ContainsInOrder_prepend (a : String) (ts : List String) (s : String)
    (h : ContainsInOrder ts s) : ContainsInOrder ts (a ++ s) := by
  cases ts with
  | nil => trivial
  | cons t ts =>
    obtain ⟨pre, rest, hs, hrest⟩ := h
    exact ⟨a ++ pre, rest, by simp [hs, String.append_assoc], hrest⟩

theorem ContainsInOrder_append (b : String) (ts : List String) (s : String)
    (h : ContainsInOrder ts s) : ContainsInOrder ts (s ++ b) := by
  induction ts generalizing s with
  | nil => trivial
  | cons t ts ih =>
    obtain ⟨pre, rest, hs, hrest⟩ := h
    exact ⟨pre, rest ++ b, by simp [hs, String.append_assoc], ih rest hrest⟩

theorem ContainsInOrder_emitDecls (SM : SourceManager) (Decls : List Decl)
    (Cur : List String) :
    ContainsInOrder (Decls.map (getDeclarationSourceText SM)) (emitDecls SM Decls Cur) := by
  induction Decls generalizing Cur with
  | nil => trivial
  | cons D rest ih =>
    simp only [List.map_cons, emitDecls]
    exact ⟨_, _, rfl, ih _⟩

theorem ContainsInOrder_NewCode (SM : SourceManager) (Includes : List String)
    (Decls : List Decl) (FileName : String) (IsHeader : Bool)
    (OldHeaderInclude : String) :
    ContainsInOrder (Decls.map (getDeclarationSourceText SM))
      (NewCode SM Includes Decls FileName IsHeader OldHeaderInclude) := by
  unfold NewCode
  apply ContainsInOrder_append
  apply ContainsInOrder_prepend
  exact ContainsInOrder_emitDecls SM Decls []

theorem FileMap.find_set_same (M : FileMap) (F : String) (R : Replacements) :
    (M.set F R).find F = R := by
  induction M with
  | nil => simp [FileMap.set, FileMap.find]
  | cons e rest ih =>
    obtain ⟨G, S⟩ := e
    by_cases h1 : G = F
    · simp [FileMap.set, FileMap.find, h1]
    · by_cases h2 : F.data < G.data
      · simp [FileMap.set, FileMap.find, h1, h2]
      · simp [FileMap.set, FileMap.find, h1, h2, ih]

theorem FileMap.find_set_other (M : FileMap) (F G : String) (R : Replacements)
    (h : G ≠ F) : (M.set F R).find G = M.find G := by
  induction M with
  | nil => simp [FileMap.set, FileMap.find, Ne.symm h]
  | cons e rest ih =>
    obtain ⟨K, S⟩ := e
    by_cases h1 : K = F
    · subst h1
      simp [FileMap.set, FileMap.find, Ne.symm h]
    · by_cases h2 : F.data < K.data
      · simp [FileMap.set, FileMap.find, h1, h2, Ne.symm h]
      · by_cases h3 : K = G
        · subst h3
          simp [FileMap.set, FileMap.find, h1, h2]
        · simp [FileMap.set, FileMap.find, h1, h2, h3, ih]

theorem isEmpty_eq_false (s : String) (h : s ≠ "") : s.isEmpty = false := by
  cases hs : s.isEmpty
  · rfl
  · exact absurd ((String.isEmpty_iff s).mp hs) h

theorem applyAllReplacements_insertion (FileName Code : String) :
    applyAllReplacements "" [⟨FileName, 0, 0, Code⟩] = Code := by
  simp [applyAllReplacements, applyReplacement]

theorem moveDeclsToNewFiles_code (E : Env) (T : ClangMoveTool) :
    (T.Context.Spec.NewCC ≠ "" →
      ∃ Code,
        (moveDeclsToNewFiles E T).Context.FileToReplacements.find T.Context.Spec.NewCC
            = [⟨T.Context.Spec.NewCC, 0, 0, Code⟩]
          ∧ applyAllReplacements ""
              ((moveDeclsToNewFiles E T).Context.FileToReplacements.find
                T.Context.Spec.NewCC) = Code
          ∧ ContainsInOrder
              ((T.MovedDecls.filter (fun D =>
                  !isInHeaderFile E D T.Context.OriginalRunningDirectory
                    T.Context.Spec.OldHeader)).map (getDeclarationSourceText E.SM))
              Code)
      ∧ (T.Context.Spec.NewHeader ≠ "" →
          T.Context.Spec.NewHeader ≠ T.Context.Spec.NewCC →
          ∃ Code,
            (moveDeclsToNewFiles E T).Context.FileToReplacements.find
                T.Context.Spec.NewHeader
              = [⟨T.Context.Spec.NewHeader, 0, 0, Code⟩]
            ∧ applyAllReplacements ""
                ((moveDeclsToNewFiles E T).Context.FileToReplacements.find
                  T.Context.Spec.NewHeader) = Code
            ∧ ContainsInOrder
                ((T.MovedDecls.filter (fun D =>
                    isInHeaderFile E D T.Context.OriginalRunningDirectory
                      T.Context.Spec.OldHeader)).map (getDeclarationSourceText E.SM))
                Code) := by
  constructor
  · intro hcc
    have hcc' : T.Context.Spec.NewCC.isEmpty = false := isEmpty_eq_false _ hcc
    refine ⟨_, ?_, ?_, ContainsInOrder_NewCode E.SM T.CCIncludes _ T.Context.Spec.NewCC false ""⟩
    · simp [moveDeclsToNewFiles, ClangMoveTool.setFileToReplacements, hcc',
        FileMap.find_set_same, createInsertedReplacements]
    · simp [moveDeclsToNewFiles, ClangMoveTool.setFileToReplacements, hcc',
        FileMap.find_set_same, createInsertedReplacements, applyAllReplacements_insertion]
  · intro hh hne
    have hh' : T.Context.Spec.NewHeader.isEmpty = false := isEmpty_eq_false _ hh
    refine ⟨_, ?_, ?_, ContainsInOrder_NewCode E.SM T.HeaderIncludes _
      T.Context.Spec.NewHeader true
      (if T.Context.Spec.NewDependOnOld
        then "#include \"" ++ T.Context.Spec.OldHeader ++ "\"\n" else "")⟩
    · by_cases hcc : T.Context.Spec.NewCC.isEmpty = true
      · simp [moveDeclsToNewFiles, ClangMoveTool.setFileToReplacements, hh', hcc,
          FileMap.find_set_same, createInsertedReplacements]
      · simp [moveDeclsToNewFiles, ClangMoveTool.setFileToReplacements, hh', hcc,
          FileMap.find_set_same, FileMap.find_set_other _ _ _ _ hne,
          createInsertedReplacements]
    · by_cases hcc : T.Context.Spec.NewCC.isEmpty = true
      · simp [moveDeclsToNewFiles, ClangMoveTool.setFileToReplacements, hh', hcc,
          FileMap.find_set_same, createInsertedReplacements, applyAllReplacements_insertion]
      · simp [moveDeclsToNewFiles, ClangMoveTool.setFileToReplacements, hh', hcc,
          FileMap.find_set_same, FileMap.find_set_other _ _ _ _ hne,
          createInsertedReplacements, applyAllReplacements_insertion]

theorem isInHeaderFile_eq (E : Env) (D : Decl) (Dir OldHeader : String) :
    isInHeaderFile E D Dir OldHeader
      = (!OldHeader.isEmpty
          && (D.File.map E.SM.MakeAbsolutePath == some (E.make_absolute Dir OldHeader))) := by
  unfold isInHeaderFile MakeAbsolutePath
  cases hO : OldHeader.isEmpty
  · cases hF : D.File <;> simp
  · simp

theorem getDeclarationSourceText_eq (SM : SourceManager) (D : Decl) :
    getDeclarationSourceText SM D
      = ((D.File.bind SM.Buffers).map (fun Buffer =>
          String.mk ((Buffer.data.drop (getFullRange SM D).1).take
            ((getFullRange SM D).2 - (getFullRange SM D).1)))).getD "" := by
  unfold getDeclarationSourceText
  cases h : D.File.bind SM.Buffers <;> simp [substr]

/-- C3. After `moveDeclsToNewFiles`, the content of each destination file is
one insertion at offset 0, and the text it inserts contains the source text of
every moved declaration routed to that file, as non-overlapping substrings in
the order of the moved list.  The source text of a declaration is the slice of
the buffer of its own file over its full range (the characters from the start
of the range up to its end, taken from the donor buffer unchanged).  A
declaration is routed to the new header exactly when the old header is named
and the absolute path of the declaration's file is the absolute path of the
old header; every other moved declaration is routed to the new implementation
file. -/
theorem moveDeclsToNewFiles_contents (E : Env) (T : ClangMoveTool) :
    (T.Context.Spec.NewCC ≠ "" →
      ∃ Code,
        (moveDeclsToNewFiles E T).Context.FileToReplacements.find T.Context.Spec.NewCC
            = [⟨T.Context.Spec.NewCC, 0, 0, Code⟩]
          ∧ applyAllReplacements ""
              ((moveDeclsToNewFiles E T).Context.FileToReplacements.find
                T.Context.Spec.NewCC) = Code
          ∧ ContainsInOrder
              ((T.MovedDecls.filter (fun D =>
                  !(!T.Context.Spec.OldHeader.isEmpty
                    && (D.File.map E.SM.MakeAbsolutePath
                        == some (E.make_absolute T.Context.OriginalRunningDirectory
                            T.Context.Spec.OldHeader))))).map
                (fun D =>
                  ((D.File.bind E.SM.Buffers).map (fun Buffer =>
                    String.mk ((Buffer.data.drop (getFullRange E.SM D).1).take
                      ((getFullRange E.SM D).2 - (getFullRange E.SM D).1)))).getD ""))
              Code)
      ∧ (T.Context.Spec.NewHeader ≠ "" →
          T.Context.Spec.NewHeader ≠ T.Context.Spec.NewCC →
          ∃ Code,
            (moveDeclsToNewFiles E T).Context.FileToReplacements.find
                T.Context.Spec.NewHeader
              = [⟨T.Context.Spec.NewHeader, 0, 0, Code⟩]
            ∧ applyAllReplacements ""
                ((moveDeclsToNewFiles E T).Context.FileToReplacements.find
                  T.Context.Spec.NewHeader) = Code
            ∧ ContainsInOrder
                ((T.MovedDecls.filter (fun D =>
                    !T.Context.Spec.OldHeader.isEmpty
                      && (D.File.map E.SM.MakeAbsolutePath
                          == some (E.make_absolute T.Context.OriginalRunningDirectory
                              T.Context.Spec.OldHeader)))).map
                  (fun D =>
                    ((D.File.bind E.SM.Buffers).map (fun Buffer =>
                      String.mk ((Buffer.data.drop (getFullRange E.SM D).1).take
                        ((getFullRange E.SM D).2 - (getFullRange E.SM D).1)))).getD ""))
                Code) := by
  have hText : (fun D =>
      ((D.File.bind E.SM.Buffers).map (fun Buffer =>
        String.mk ((Buffer.data.drop (getFullRange E.SM D).1).take
          ((getFullRange E.SM D).2 - (getFullRange E.SM D).1)))).getD "")
      = getDeclarationSourceText E.SM :=
    funext (fun D => (getDeclarationSourceText_eq E.SM D).symm)
  have hIn : (fun D : Decl =>
      !T.Context.Spec.OldHeader.isEmpty
        && (D.File.map E.SM.MakeAbsolutePath
            == some (E.make_absolute T.Context.OriginalRunningDirectory
                T.Context.Spec.OldHeader)))
      = (fun D => isInHeaderFile E D T.Context.OriginalRunningDirectory
          T.Context.Spec.OldHeader) :=
    funext (fun D => (isInHeaderFile_eq E D _ _).symm)
  have hOut : (fun D : Decl =>
      !(!T.Context.Spec.OldHeader.isEmpty
        && (D.File.map E.SM.MakeAbsolutePath
            == some (E.make_absolute T.Context.OriginalRunningDirectory
                T.Context.Spec.OldHeader))))
      = (fun D => !isInHeaderFile E D T.Context.OriginalRunningDirectory
          T.Context.Spec.OldHeader) :=
    funext (fun D => congrArg (fun b => !b) (isInHeaderFile_eq E D _ _).symm)
  rw [hText, hIn, hOut]
  exact moveDeclsToNewFiles_code E T

/-- Witness of `moveDeclsToNewFiles_contents` on `old.h`/`old.cc` with the
classes `A::B::X` and `A::B::Y` and the function `f` requested: the moved list
is `X`, `Y`, `using std::x;`, `f`; the two classes are routed to `new.h` and
the using declaration and the function to `new.cc`; their texts are the lines
of the donor buffers; and the content of each new file contains the texts
routed to it, in that order. -/
theorem moveDeclsToNewFiles_contents_witness :
    routedTool.MovedDecls = [declABX, declABY, declUsing, declF]
      ∧ exampleSM.Buffers "old.h"
          = some ("namespace A \x7b\nnamespace B \x7b\nclass X \x7b\x7d;\nclass Y \x7b\x7d;\n\x7d\n"
              ++ "namespace C \x7b\nclass Z \x7b\x7d;\n\x7d\n\x7d\nnamespace D \x7b\nclass W \x7b\x7d;\n\x7d\n")
      ∧ exampleSM.Buffers "old.cc" = some "#include <old.h>\nusing std::x;\nint f() \x7b\x7d\n"
      ∧ (moveDeclsToNewFiles exampleEnv routedTool).Context.FileToReplacements.find "new.h"
          = [⟨"new.h", 0, 0,
              "#ifndef NEW_H\n#define NEW_H\n\nnamespace A \x7b\nnamespace B \x7b\n"
                ++ "class X \x7b\x7d;\n\nclass Y \x7b\x7d;\n"
                ++ "\x7d // namespace B\n\x7d // namespace A\n\n#endif // NEW_H\n"⟩]
      ∧ (moveDeclsToNewFiles exampleEnv routedTool).Context.FileToReplacements.find "new.cc"
          = [⟨"new.cc", 0, 0,
              "#include \"new.h\"\n\n\nusing std::x;\n\nint f() \x7b\x7d\n"⟩]
      ∧ ContainsInOrder ["class X \x7b\x7d;\n", "class Y \x7b\x7d;\n"]
          ("#ifndef NEW_H\n#define NEW_H\n\nnamespace A \x7b\nnamespace B \x7b\n"
            ++ "class X \x7b\x7d;\n\nclass Y \x7b\x7d;\n"
            ++ "\x7d // namespace B\n\x7d // namespace A\n\n#endif // NEW_H\n")
      ∧ ContainsInOrder ["using std::x;\n", "int f() \x7b\x7d\n"]
          "#include \"new.h\"\n\n\nusing std::x;\n\nint f() \x7b\x7d\n" := by
  have hH : (moveDeclsToNewFiles exampleEnv routedTool).Context.FileToReplacements.find "new.h"
      = [⟨"new.h", 0, 0,
          "#ifndef NEW_H\n#define NEW_H\n\nnamespace A \x7b\nnamespace B \x7b\n"
            ++ "class X \x7b\x7d;\n\nclass Y \x7b\x7d;\n"
            ++ "\x7d // namespace B\n\x7d // namespace A\n\n#endif // NEW_H\n"⟩] := by
    decide
  have hC : (moveDeclsToNewFiles exampleEnv routedTool).Context.FileToReplacements.find "new.cc"
      = [⟨"new.cc", 0, 0, "#include \"new.h\"\n\n\nusing std::x;\n\nint f() \x7b\x7d\n"⟩] := by
    decide
  refine ⟨by decide, by decide, by decide, hH, hC, ?_, ?_⟩
  · obtain ⟨Code, hFind, -, hIn⟩ :=
      (moveDeclsToNewFiles_contents exampleEnv routedTool).2 (by decide) (by decide)
    have hCode : Code
        = "#ifndef NEW_H\n#define NEW_H\n\nnamespace A \x7b\nnamespace B \x7b\n"
            ++ "class X \x7b\x7d;\n\nclass Y \x7b\x7d;\n"
            ++ "\x7d // namespace B\n\x7d // namespace A\n\n#endif // NEW_H\n" := by
      have h := hFind.symm.trans hH
      simp at h
      exact h.2
    rw [← hCode]
    exact hIn
  · obtain ⟨Code, hFind, -, hIn⟩ :=
      (moveDeclsToNewFiles_contents exampleEnv routedTool).1 (by decide)
    have hCode : Code = "#include \"new.h\"\n\n\nusing std::x;\n\nint f() \x7b\x7d\n" := by
      have h := hFind.symm.trans hC
      simp at h
      exact h.2
    rw [← hCode]
    exact hIn

/-- C5. For a header, the text built by `createInsertedReplacements` is the
guard opening `#ifndef G`, `#define G` and a blank line, then the text built
for a file that is not a header (the include of the old header, the replayed
includes, the namespaces and declarations), then a blank line and `#endif // G`,
where `G` is the file name with every non-alphanumeric character replaced by
an underscore and then upper-cased.  For a file that is not a header the text
is the includes and the declarations only, without any guard line. -/
theorem createInsertedReplacements_include_guard (SM : SourceManager)
    (Includes : List String) (Decls : List Decl) (FileName : String)
    (OldHeaderInclude : String) :
    (GuardName FileName).data
        = FileName.data.map (fun c => Char.toUpper (if c.isAlphanum then c else '_'))
      ∧ createInsertedReplacements SM Includes Decls FileName true OldHeaderInclude
        = [⟨FileName, 0, 0,
            "#ifndef " ++ GuardName FileName ++ "\n"
              ++ ("#define " ++ GuardName FileName ++ "\n\n")
              ++ NewCode SM Includes Decls FileName false OldHeaderInclude
              ++ ("\n#endif // " ++ GuardName FileName ++ "\n")⟩]
      ∧ createInsertedReplacements SM Includes Decls FileName false OldHeaderInclude
        = [⟨FileName, 0, 0,
            OldHeaderInclude ++ appendAll Includes
              ++ (if Includes.isEmpty then "" else "\n")
              ++ emitDecls SM Decls []⟩] := by
  refine ⟨by simp [GuardName], ?_, ?_⟩
  · simp [createInsertedReplacements, NewCode, String.append_assoc]
  · cases h : Includes.isEmpty <;> simp [createInsertedReplacements, NewCode, h]

/-! ## The replacement synthesizer: results -/

theorem addRemoveReplacements_find (E : Env) (Decls : List Decl) (M : FileMap)
    (Errors : Nat) (F : String) :
    (addRemoveReplacements E Decls (M, Errors)).1.find F
      = (Decls.filter (fun D => replacementFilePath D = F)).foldl
          (fun S D => (E.add S (RemoveReplacement E.SM D)).1) (M.find F) := by
  induction Decls generalizing M Errors with
  | nil => simp [addRemoveReplacements]
  | cons D rest ih =>
    simp only [addRemoveReplacements]
    rw [ih]
    by_cases h : replacementFilePath D = F
    · subst h
      simp [RemoveReplacement, FileMap.find_set_same]
    · have h' : F ≠ (RemoveReplacement E.SM D).FilePath := by
        simpa [RemoveReplacement] using Ne.symm h
      simp [h, FileMap.find_set_other _ _ _ _ h']

theorem addRemoveReplacements_append (E : Env) (Ds Ds' : List Decl) (State : FileMap × Nat) :
    addRemoveReplacements E (Ds ++ Ds') State
      = addRemoveReplacements E Ds' (addRemoveReplacements E Ds State) := by
  induction Ds generalizing State with
  | nil => simp [addRemoveReplacements]
  | cons D rest ih =>
    obtain ⟨M, Errors⟩ := State
    simp [addRemoveReplacements, ih]

theorem addStrict_error_unchanged (S : Replacements) (R : Replacement)
    (h : (Replacements.addStrict S R).2 = true) : (Replacements.addStrict S R).1 = S := by
  unfold Replacements.addStrict at h ⊢
  split
  · rfl
  · split
    · rename_i h1 h2
      simp [h1, h2] at h
    · split
      · rfl
      · rename_i h1 h2 h3
        simp [h1, h2, h3] at h

/-- C6, as the code behaves. A match bound to `fwd_decl`, `anonymous_ns`,
`static_decls` or `using_decl` extends the moved list at most and leaves the
list of removed declarations as it is, while a matched function records the
declaration it appends to the moved list for removal as well.  The first loop
of `removeDeclsInOldFiles` then passes, for every removed declaration in
order, exactly one deletion (offset and length of the full range, empty text)
to `add` on the set of the declaration's file: the set of a file `F` is the
result of these calls for the removed declarations of `F`, starting from the
set the map held for `F`. -/
theorem removeDeclsInOldFiles_one_deletion_per_removed (E : Env) (T : ClangMoveTool) :
    (∀ (N : Node) (B : Binding),
        B = Binding.fwd_decl ∨ B = Binding.anonymous_ns ∨ B = Binding.static_decls
          ∨ B = Binding.using_decl →
        (onMatch T ⟨B, N⟩).RemovedDecls = T.RemovedDecls)
      ∧ (∀ (N : Node) (B : Binding),
          B = Binding.function ∨ B = Binding.moved_class
            ∨ B = Binding.class_static_var_decl
            ∨ (B = Binding.class_method ∧ N.isInlined = false) →
          ∃ D, (onMatch T ⟨B, N⟩).MovedDecls = T.MovedDecls ++ [D]
            ∧ (onMatch T ⟨B, N⟩).RemovedDecls = T.RemovedDecls ++ [D])
      ∧ (∀ D, RemoveReplacement E.SM D
          = ⟨replacementFilePath D, (getFullRange E.SM D).1,
              (getFullRange E.SM D).2 - (getFullRange E.SM D).1, ""⟩)
      ∧ ∀ (F : String),
          (addRemoveReplacements E T.RemovedDecls
              (T.Context.FileToReplacements, T.Errors)).1.find F
            = (T.RemovedDecls.filter (fun D => replacementFilePath D = F)).foldl
                (fun S D => (E.add S (RemoveReplacement E.SM D)).1)
                (T.Context.FileToReplacements.find F) := by
  refine ⟨?_, ?_, fun D => rfl, fun F => addRemoveReplacements_find E _ _ _ F⟩
  · intro N B hB
    rcases hB with rfl | rfl | rfl | rfl
    · simp only [onMatch, ClangMoveTool.run]
      split
      · split <;> rfl
      · rfl
    · rfl
    · rfl
    · rfl
  · intro N B hB
    rcases hB with rfl | rfl | rfl | ⟨rfl, hN⟩
    · refine ⟨match N.DescribedTemplate with
        | some FTD => FTD
        | none => N.D, ?_, ?_⟩ <;>
      simp [onMatch, FunctionDeclarationMatch.run, ClangMoveTool.addRemovedDecl]
    · refine ⟨match N.DescribedTemplate with
        | some Template => Template
        | none => N.D, ?_, ?_⟩ <;>
      simp [onMatch, ClassDeclarationMatch.run, ClassDeclarationMatch.MatchClassDeclaration,
        ClangMoveTool.addRemovedDecl]
    · refine ⟨N.D, ?_, ?_⟩ <;>
      simp [onMatch, ClassDeclarationMatch.run,
        ClassDeclarationMatch.MatchClassStaticVariable, ClangMoveTool.addRemovedDecl]
    · refine ⟨N.D, ?_, ?_⟩ <;>
      · simp only [onMatch, ClassDeclarationMatch.run, ClassDeclarationMatch.MatchClassMethod,
          hN, ClangMoveTool.addRemovedDecl]
        cases N.DescribedTemplate <;> simp

/-- C6, as stated, fails: `using std::x;` of `old.cc` is in the moved list,
yet after the end of the translation unit the edit set of `old.cc` holds no
edit at all, so its text is not removed from the donor; only the matched class
of `old.h` has a deletion. -/
theorem removeDeclsInOldFiles_counterexample :
    declUsing ∈ exampleTool.MovedDecls
      ∧ endAction exampleTool = EndAction.MoveDecls
      ∧ (onEndOfTranslationUnit exampleEnv exampleTool).Context.FileToReplacements.find
          "old.cc" = []
      ∧ (onEndOfTranslationUnit exampleEnv exampleTool).Context.FileToReplacements.find
          "old.h" = [⟨"old.h", 28, 12, ""⟩] := by
  decide

/-- C7, as the code behaves. Let `add` leave a set as it is whenever it
reports an error.  If `add` reports a conflict for the deletion of a removed
declaration `D`, the first loop of `removeDeclsInOldFiles` writes one message
and goes on: the edit set of the file of `D` keeps all the edits it held, and
after the loop the edit set of every file is exactly what it would be if `D`
had not been in the list. -/
theorem removeDeclsInOldFiles_conflict_keeps_edits (E : Env)
    (hErr : ∀ S R, (E.add S R).2 = true → (E.add S R).1 = S)
    (M : FileMap) (Errors : Nat) (Pre Post : List Decl) (D : Decl)
    (hConflict :
      (E.add ((addRemoveReplacements E Pre (M, Errors)).1.find (replacementFilePath D))
        (RemoveReplacement E.SM D)).2 = true) :
    (addRemoveReplacements E (Pre ++ [D]) (M, Errors)).2
        = (addRemoveReplacements E Pre (M, Errors)).2 + 1
      ∧ (addRemoveReplacements E (Pre ++ [D]) (M, Errors)).1.find (replacementFilePath D)
        = (addRemoveReplacements E Pre (M, Errors)).1.find (replacementFilePath D)
      ∧ ∀ (F : String),
          (addRemoveReplacements E (Pre ++ D :: Post) (M, Errors)).1.find F
            = (addRemoveReplacements E (Pre ++ Post) (M, Errors)).1.find F := by
  have hSame := hErr _ _ hConflict
  have hStep : ∀ (F : String),
      (addRemoveReplacements E (Pre ++ [D]) (M, Errors)).1.find F
        = (addRemoveReplacements E Pre (M, Errors)).1.find F := by
    intro F
    rw [addRemoveReplacements_append]
    generalize hst : addRemoveReplacements E Pre (M, Errors) = st at hSame hConflict
    obtain ⟨M1, E1⟩ := st
    simp only [addRemoveReplacements]
    by_cases hF : F = (RemoveReplacement E.SM D).FilePath
    · subst hF
      rw [FileMap.find_set_same]
      exact hSame
    · rw [FileMap.find_set_other _ _ _ _ hF]
  refine ⟨?_, hStep _, ?_⟩
  · rw [addRemoveReplacements_append]
    generalize hst : addRemoveReplacements E Pre (M, Errors) = st at hSame hConflict
    obtain ⟨M1, E1⟩ := st
    simp only [addRemoveReplacements]
    simp only [RemoveReplacement] at hConflict ⊢
    simp [hConflict]
  · intro F
    have h1 : Pre ++ D :: Post = (Pre ++ [D]) ++ Post := by simp
    rw [h1, addRemoveReplacements_append, addRemoveReplacements_append E Pre Post]
    generalize addRemoveReplacements E (Pre ++ [D]) (M, Errors) = st1 at hStep
    generalize addRemoveReplacements E Pre (M, Errors) = st0 at hStep
    obtain ⟨M1, E1⟩ := st1
    obtain ⟨M0, E0⟩ := st0
    rw [addRemoveReplacements_find, addRemoveReplacements_find, hStep F]

/-- Witness of `removeDeclsInOldFiles_one_deletion_per_removed`: on the tool
that moves `A::B::X` and carries `using std::x;` along, the using declaration
is not recorded for removal and the set of `old.h` is the result of one call
of `add` with the deletion of the class. -/
theorem removeDeclsInOldFiles_one_deletion_per_removed_witness :
    (onMatch exampleTool ⟨Binding.using_decl, { D := declUsing }⟩).RemovedDecls
        = exampleTool.RemovedDecls
      ∧ (addRemoveReplacements exampleEnv exampleTool.RemovedDecls
            (exampleTool.Context.FileToReplacements, exampleTool.Errors)).1.find "old.h"
          = (exampleTool.RemovedDecls.filter (fun D => replacementFilePath D = "old.h")).foldl
              (fun S D => (exampleEnv.add S (RemoveReplacement exampleEnv.SM D)).1)
              (exampleTool.Context.FileToReplacements.find "old.h") :=
  ⟨(removeDeclsInOldFiles_one_deletion_per_removed exampleEnv exampleTool).1
      { D := declUsing } Binding.using_decl (Or.inr (Or.inr (Or.inr rfl))),
    (removeDeclsInOldFiles_one_deletion_per_removed exampleEnv exampleTool).2.2.2 "old.h"⟩

/-- C7, as stated, fails: the classes `P` and `Q` stand on one line of
`two.h`, so their full ranges overlap; the strict `add` reports the conflict,
one message is written, and the edit set of `two.h` still holds the deletion
of `P`: it is not empty. -/
theorem removeDeclsInOldFiles_conflict_counterexample :
    endAction twoTool = EndAction.MoveDecls
      ∧ RemoveReplacement exampleSM declP = ⟨"two.h", 0, 24, ""⟩
      ∧ RemoveReplacement exampleSM declQ = ⟨"two.h", 12, 12, ""⟩
      ∧ (removeDeclsInOldFiles exampleEnv twoTool).Errors = 1
      ∧ (removeDeclsInOldFiles exampleEnv twoTool).Context.FileToReplacements.find "two.h"
          = [⟨"two.h", 0, 24, ""⟩]
      ∧ (onEndOfTranslationUnit exampleEnv twoTool).Context.FileToReplacements.find "two.h"
          ≠ [] := by
  decide

/-- Witness of `removeDeclsInOldFiles_conflict_keeps_edits`: the deletion of
`Q` conflicts with the deletion of `P`. -/
theorem removeDeclsInOldFiles_conflict_keeps_edits_witness :
    (exampleEnv.add
        ((addRemoveReplacements exampleEnv [declP] ([], 0)).1.find (replacementFilePath declQ))
        (RemoveReplacement exampleEnv.SM declQ)).2 = true
      ∧ (addRemoveReplacements exampleEnv ([declP] ++ [declQ]) ([], 0)).2
          = (addRemoveReplacements exampleEnv [declP] ([], 0)).2 + 1
      ∧ (addRemoveReplacements exampleEnv ([declP] ++ [declQ]) ([], 0)).1.find
            (replacementFilePath declQ)
          = (addRemoveReplacements exampleEnv [declP] ([], 0)).1.find
            (replacementFilePath declQ)
      ∧ ∀ (F : String),
          (addRemoveReplacements exampleEnv ([declP] ++ declQ :: [declF]) ([], 0)).1.find F
            = (addRemoveReplacements exampleEnv ([declP] ++ [declF]) ([], 0)).1.find F :=
  ⟨by decide,
    removeDeclsInOldFiles_conflict_keeps_edits exampleEnv
      (fun S R h => addStrict_error_unchanged S R h) [] 0 [declP] [declF] declQ (by decide)⟩

/-! ## End of the translation unit: results -/

theorem moveAll_Spec (E : Env) (T : ClangMoveTool) (OldFile NewFile : String) :
    (moveAll E T OldFile NewFile).Context.Spec = T.Context.Spec
      ∧ (moveAll E T OldFile NewFile).Context.OriginalRunningDirectory
          = T.Context.OriginalRunningDirectory
      ∧ (moveAll E T OldFile NewFile).OldHeaderIncludeRange = T.OldHeaderIncludeRange := by
  unfold moveAll
  split
  · simp
  · split <;> simp [ClangMoveTool.setFileToReplacements]

theorem moveAll_makeAbsolutePath (E : Env) (T : ClangMoveTool) (OldFile NewFile Path : String) :
    (moveAll E T OldFile NewFile).makeAbsolutePath E Path = T.makeAbsolutePath E Path := by
  simp [ClangMoveTool.makeAbsolutePath, (moveAll_Spec E T OldFile NewFile).2.1]

theorem moveAll_find_other (E : Env) (T : ClangMoveTool) (OldFile NewFile G : String)
    (hOld : ∀ FE, E.SM.getFile (T.makeAbsolutePath E OldFile) = some FE → G ≠ FE)
    (hNew : G ≠ NewFile) :
    (moveAll E T OldFile NewFile).Context.FileToReplacements.find G
      = T.Context.FileToReplacements.find G := by
  unfold moveAll
  split
  · simp
  · rename_i FE hFE
    have hG := hOld FE hFE
    split
    · simp [ClangMoveTool.setFileToReplacements, FileMap.find_set_other _ _ _ _ hNew,
        FileMap.find_set_other _ _ _ _ hG]
    · simp [ClangMoveTool.setFileToReplacements, FileMap.find_set_other _ _ _ _ hG]

theorem moveAll_find_old (E : Env) (T : ClangMoveTool) (OldFile NewFile FE Code : String)
    (hFile : E.SM.getFile (T.makeAbsolutePath E OldFile) = some FE)
    (hBuf : E.SM.Buffers FE = some Code) (hNe : FE ≠ NewFile) :
    (moveAll E T OldFile NewFile).Context.FileToReplacements.find FE
      = [⟨FE, 0, Code.length, ""⟩] := by
  unfold moveAll
  simp only [hFile, hBuf, Option.getD_some]
  split
  · simp [ClangMoveTool.setFileToReplacements, FileMap.find_set_other _ _ _ _ hNe,
      FileMap.find_set_same]
  · simp [ClangMoveTool.setFileToReplacements, FileMap.find_set_same]

theorem moveAll_find_new (E : Env) (T : ClangMoveTool) (OldFile NewFile FE Code : String)
    (hFile : E.SM.getFile (T.makeAbsolutePath E OldFile) = some FE)
    (hBuf : E.SM.Buffers FE = some Code) (hNew : NewFile ≠ "") :
    (moveAll E T OldFile NewFile).Context.FileToReplacements.find NewFile
      = match T.OldHeaderIncludeRange with
        | some Range =>
          if T.Context.Spec.NewCC == NewFile then
            Replacements.merge ⟨NewFile, 0, 0, Code⟩
              ⟨Range.File, Range.Begin, Range.End - Range.Begin,
                "\"" ++ T.Context.Spec.NewHeader ++ "\""⟩
          else [⟨NewFile, 0, 0, Code⟩]
        | none => [⟨NewFile, 0, 0, Code⟩] := by
  unfold moveAll
  simp only [hFile, hBuf, Option.getD_some, isEmpty_eq_false _ hNew,
    ClangMoveTool.setFileToReplacements, FileMap.find_set_same, Bool.not_false, if_true]

theorem applyAllReplacements_removeAll (FE Code : String) :
    applyAllReplacements Code [⟨FE, 0, Code.length, ""⟩] = "" := by
  obtain ⟨l⟩ := Code
  apply String.ext
  show List.take 0 l ++ [] ++ List.drop (0 + l.length) l = []
  simp

theorem endAction_MoveAll_iff (T : ClangMoveTool) :
    endAction T = EndAction.MoveAll ↔
      T.Context.DumpDeclarations = false ∧ T.RemovedDecls ≠ []
        ∧ (∀ D ∈ T.UnremovedDeclsInOldHeader, IsSupportedKind D = false)
        ∧ T.Context.Spec.OldHeader ≠ "" := by
  unfold endAction
  cases hD : T.Context.DumpDeclarations with
  | true => simp
  | false =>
    cases hR : T.RemovedDecls with
    | nil => simp
    | cons a l =>
      by_cases hOld : T.Context.Spec.OldHeader = ""
      · have hE : ("" : String).isEmpty = true := rfl
        simp [hOld, hE]
      · have hE := isEmpty_eq_false _ hOld
        simp [hE, hOld]

theorem IsSupportedKind_eq_false (D : Decl) :
    IsSupportedKind D = false ↔
      D.DeclKind ≠ Kind.Function ∧ D.DeclKind ≠ Kind.FunctionTemplate
        ∧ D.DeclKind ≠ Kind.CXXRecord ∧ D.DeclKind ≠ Kind.ClassTemplate := by
  unfold IsSupportedKind
  cases D.DeclKind <;> simp

/-- C8, as the code behaves. Outside dump mode and when a declaration has been
recorded for removal (the guard tests `RemovedDecls.empty()`, not the moved
list), `onEndOfTranslationUnit` takes the whole-file path if and only if no declaration in
`UnremovedDeclsInOldHeader` is a function, function template, class or class
template and the old header path is not empty.  On that path the result is
that of the two `moveAll` calls alone; otherwise it is that of
`removeDeclsInOldFiles` followed by `moveDeclsToNewFiles`. -/
theorem onEndOfTranslationUnit_paths (E : Env) (T : ClangMoveTool)
    (hDump : T.Context.DumpDeclarations = false) (hRemoved : T.RemovedDecls ≠ []) :
    (endAction T = EndAction.MoveAll ↔
        (∀ D ∈ T.UnremovedDeclsInOldHeader,
            D.DeclKind ≠ Kind.Function ∧ D.DeclKind ≠ Kind.FunctionTemplate
              ∧ D.DeclKind ≠ Kind.CXXRecord ∧ D.DeclKind ≠ Kind.ClassTemplate)
          ∧ T.Context.Spec.OldHeader ≠ "")
      ∧ (endAction T = EndAction.MoveAll →
          onEndOfTranslationUnit E T
            = moveAll E (moveAll E T T.Context.Spec.OldHeader T.Context.Spec.NewHeader)
                T.Context.Spec.OldCC T.Context.Spec.NewCC)
      ∧ (endAction T ≠ EndAction.MoveAll →
          endAction T = EndAction.MoveDecls
            ∧ onEndOfTranslationUnit E T
              = moveDeclsToNewFiles E (removeDeclsInOldFiles E T)) := by
  refine ⟨?_, ?_, ?_⟩
  · rw [endAction_MoveAll_iff]
    constructor
    · rintro ⟨_, _, hAll, hOld⟩
      exact ⟨fun D hD => (IsSupportedKind_eq_false D).mp (hAll D hD), hOld⟩
    · rintro ⟨hAll, hOld⟩
      exact ⟨hDump, hRemoved, fun D hD => (IsSupportedKind_eq_false D).mpr (hAll D hD), hOld⟩
  · intro h
    simp [onEndOfTranslationUnit, h]
  · intro h
    have hAct : endAction T = EndAction.MoveDecls := by
      have hR : T.RemovedDecls.isEmpty = false := by
        cases hl : T.RemovedDecls with
        | nil => exact absurd hl hRemoved
        | cons a l => rfl
      unfold endAction at h ⊢
      simp only [hDump, hR, Bool.false_eq_true, if_false] at h ⊢
      split
      · rename_i hc
        simp [hc] at h
      · rfl
    exact ⟨hAct, by simp [onEndOfTranslationUnit, hAct]⟩

/-- Witness of `onEndOfTranslationUnit_paths`: when every class of `old.h` is
moved the whole-file path is taken. -/
theorem onEndOfTranslationUnit_paths_witness :
    wholeTool.Context.DumpDeclarations = false ∧ wholeTool.RemovedDecls ≠ []
      ∧ endAction wholeTool = EndAction.MoveAll
      ∧ onEndOfTranslationUnit exampleEnv wholeTool
          = moveAll exampleEnv
              (moveAll exampleEnv wholeTool wholeTool.Context.Spec.OldHeader
                wholeTool.Context.Spec.NewHeader)
              wholeTool.Context.Spec.OldCC wholeTool.Context.Spec.NewCC :=
  ⟨by decide, by decide, by decide,
    (onEndOfTranslationUnit_paths exampleEnv wholeTool (by decide) (by decide)).2.1
      (by decide)⟩

/-- C8, as stated, fails: when only `using std::x;` of `old.cc` is delivered,
one declaration has been classified as moved, no declaration of the old
header is left unremoved and the old header path is not empty, yet the
whole-file path is not taken; and neither is the other one: the map from
files to replacements stays empty, while each of the two paths would have
filled it.  The same on the stream of `old.h`/`old.cc` from which `A::B::X`
has already been taken out: `using std::x;` is classified as moved, the class
`A::B::Y` is left unremoved, and neither path runs. -/
theorem onEndOfTranslationUnit_paths_counterexample :
    (processStream exampleEnv exampleContext strippedEvents).MovedDecls = [declUsing]
      ∧ (processStream exampleEnv exampleContext strippedEvents).UnremovedDeclsInOldHeader
          = [declABY]
      ∧ endAction (processStream exampleEnv exampleContext strippedEvents) = EndAction.Nothing
      ∧ (runTool exampleEnv exampleContext strippedEvents).Context.FileToReplacements = []
      ∧ (moveDeclsToNewFiles exampleEnv
            (removeDeclsInOldFiles exampleEnv
              (processStream exampleEnv exampleContext strippedEvents))).Context.FileToReplacements
          ≠ []
      ∧ exampleContext.DumpDeclarations = false
      ∧ (processStream exampleEnv exampleContext usingOnlyEvents).MovedDecls = [declUsing]
      ∧ (processStream exampleEnv exampleContext usingOnlyEvents).UnremovedDeclsInOldHeader = []
      ∧ exampleContext.Spec.OldHeader ≠ ""
      ∧ endAction (processStream exampleEnv exampleContext usingOnlyEvents) = EndAction.Nothing
      ∧ (runTool exampleEnv exampleContext usingOnlyEvents).Context.FileToReplacements = []
      ∧ (moveAll exampleEnv
            (moveAll exampleEnv (processStream exampleEnv exampleContext usingOnlyEvents)
              "old.h" "new.h") "old.cc" "new.cc").Context.FileToReplacements ≠ []
      ∧ (moveDeclsToNewFiles exampleEnv
            (removeDeclsInOldFiles exampleEnv
              (processStream exampleEnv exampleContext usingOnlyEvents))).Context.FileToReplacements
          ≠ [] := by
  decide

/-- C9. On the whole-file path, when the old header exists with buffer
`CodeH` and the four files are distinct, the edit set of the old header is the
single deletion of the whole buffer (offset 0, length of the buffer, empty
text), which applied to the buffer gives the empty string, and the edit set of
the new header applied to an empty file gives exactly `CodeH`.  The same holds
for the old and new implementation file when no include of the old header was
recorded. -/
theorem moveAll_round_trip (E : Env) (T : ClangMoveTool)
    (hAct : endAction T = EndAction.MoveAll) :
    (∀ (H CodeH : String),
        E.SM.getFile (T.makeAbsolutePath E T.Context.Spec.OldHeader) = some H →
        E.SM.Buffers H = some CodeH →
        T.Context.Spec.NewHeader ≠ "" → H ≠ T.Context.Spec.NewHeader →
        T.Context.Spec.NewHeader ≠ T.Context.Spec.NewCC → H ≠ T.Context.Spec.NewCC →
        (∀ C, E.SM.getFile (T.makeAbsolutePath E T.Context.Spec.OldCC) = some C →
          H ≠ C ∧ T.Context.Spec.NewHeader ≠ C) →
        (onEndOfTranslationUnit E T).Context.FileToReplacements.find H
            = [⟨H, 0, CodeH.length, ""⟩]
          ∧ applyAllReplacements CodeH
              ((onEndOfTranslationUnit E T).Context.FileToReplacements.find H) = ""
          ∧ (onEndOfTranslationUnit E T).Context.FileToReplacements.find
              T.Context.Spec.NewHeader = [⟨T.Context.Spec.NewHeader, 0, 0, CodeH⟩]
          ∧ applyAllReplacements ""
              ((onEndOfTranslationUnit E T).Context.FileToReplacements.find
                T.Context.Spec.NewHeader) = CodeH)
      ∧ (∀ (C CodeC : String),
          E.SM.getFile (T.makeAbsolutePath E T.Context.Spec.OldCC) = some C →
          E.SM.Buffers C = some CodeC →
          T.Context.Spec.NewCC ≠ "" → C ≠ T.Context.Spec.NewCC →
          T.OldHeaderIncludeRange = none →
          (onEndOfTranslationUnit E T).Context.FileToReplacements.find C
              = [⟨C, 0, CodeC.length, ""⟩]
            ∧ applyAllReplacements CodeC
                ((onEndOfTranslationUnit E T).Context.FileToReplacements.find C) = ""
            ∧ (onEndOfTranslationUnit E T).Context.FileToReplacements.find
                T.Context.Spec.NewCC = [⟨T.Context.Spec.NewCC, 0, 0, CodeC⟩]
            ∧ applyAllReplacements ""
                ((onEndOfTranslationUnit E T).Context.FileToReplacements.find
                  T.Context.Spec.NewCC) = CodeC) := by
  have hEnd : onEndOfTranslationUnit E T
      = moveAll E (moveAll E T T.Context.Spec.OldHeader T.Context.Spec.NewHeader)
          T.Context.Spec.OldCC T.Context.Spec.NewCC := by
    simp [onEndOfTranslationUnit, hAct]
  obtain ⟨hSpec, hDir, hRange⟩ :=
    moveAll_Spec E T T.Context.Spec.OldHeader T.Context.Spec.NewHeader
  have hAbs := moveAll_makeAbsolutePath E T T.Context.Spec.OldHeader T.Context.Spec.NewHeader
  constructor
  · intro H CodeH hFile hBuf hNew hHN hNN hHC hCC
    have hOldFrame : ∀ G, G = H ∨ G = T.Context.Spec.NewHeader →
        (onEndOfTranslationUnit E T).Context.FileToReplacements.find G
          = (moveAll E T T.Context.Spec.OldHeader
              T.Context.Spec.NewHeader).Context.FileToReplacements.find G := by
      intro G hG
      rw [hEnd]
      apply moveAll_find_other
      · intro FE hFE
        rw [hAbs] at hFE
        rcases hG with rfl | rfl
        · exact (hCC FE hFE).1
        · exact (hCC FE hFE).2
      · rcases hG with rfl | rfl
        · exact hHC
        · exact hNN
    have h1 := moveAll_find_old E T _ _ H CodeH hFile hBuf hHN
    have h2 := moveAll_find_new E T _ _ H CodeH hFile hBuf hNew
    have h2' : (moveAll E T T.Context.Spec.OldHeader
        T.Context.Spec.NewHeader).Context.FileToReplacements.find T.Context.Spec.NewHeader
        = [⟨T.Context.Spec.NewHeader, 0, 0, CodeH⟩] := by
      rw [h2]
      have hne : (T.Context.Spec.NewCC == T.Context.Spec.NewHeader) = false := by
        simpa using Ne.symm hNN
      cases T.OldHeaderIncludeRange <;> simp [hne]
    rw [hOldFrame H (Or.inl rfl), hOldFrame _ (Or.inr rfl), h1, h2']
    exact ⟨rfl, applyAllReplacements_removeAll H CodeH, rfl,
      applyAllReplacements_insertion _ CodeH⟩
  · intro C CodeC hFile hBuf hNew hCN hNone
    rw [hEnd]
    have hFile' : E.SM.getFile ((moveAll E T T.Context.Spec.OldHeader
        T.Context.Spec.NewHeader).makeAbsolutePath E T.Context.Spec.OldCC) = some C := by
      rw [hAbs]; exact hFile
    have h1 := moveAll_find_old E _ T.Context.Spec.OldCC T.Context.Spec.NewCC C CodeC
      hFile' hBuf hCN
    have h2 := moveAll_find_new E _ T.Context.Spec.OldCC T.Context.Spec.NewCC C CodeC
      hFile' hBuf hNew
    rw [hRange, hNone] at h2
    rw [h1, h2]
    exact ⟨rfl, applyAllReplacements_removeAll C CodeC, rfl,
      applyAllReplacements_insertion _ CodeC⟩

/-- Witness of `moveAll_round_trip`: the implementation file `old.cc` when all
of `old.h` is moved and no include of the old header was recorded. -/
theorem moveAll_round_trip_witness :
    endAction wholeTool = EndAction.MoveAll
      ∧ (onEndOfTranslationUnit exampleEnv wholeTool).Context.FileToReplacements.find "old.cc"
          = [⟨"old.cc", 0,
              ("#include <old.h>\nusing std::x;\nint f() \x7b\x7d\n" : String).length, ""⟩]
      ∧ applyAllReplacements "#include <old.h>\nusing std::x;\nint f() \x7b\x7d\n"
          ((onEndOfTranslationUnit exampleEnv wholeTool).Context.FileToReplacements.find
            "old.cc") = ""
      ∧ (onEndOfTranslationUnit exampleEnv wholeTool).Context.FileToReplacements.find
          wholeTool.Context.Spec.NewCC
          = [⟨wholeTool.Context.Spec.NewCC, 0, 0,
              "#include <old.h>\nusing std::x;\nint f() \x7b\x7d\n"⟩]
      ∧ applyAllReplacements ""
          ((onEndOfTranslationUnit exampleEnv wholeTool).Context.FileToReplacements.find
            wholeTool.Context.Spec.NewCC)
          = "#include <old.h>\nusing std::x;\nint f() \x7b\x7d\n" :=
  ⟨by decide,
    (moveAll_round_trip exampleEnv wholeTool (by decide)).2 "old.cc"
      "#include <old.h>\nusing std::x;\nint f() \x7b\x7d\n"
      (by decide) (by decide) (by decide) (by decide) (by decide)⟩

/-- C10, as the code behaves. On the whole-file path, when the include of the
old header that was recorded is in the old implementation file, with the file
name token at `[Begin, End)` of its buffer, the buffer is the text before the
token, the token and the text after it, and the edit set of the new
implementation file is the insertion of the text before the token, the name
of the new header between double quotes (whatever delimiters the token had)
and the text after the token. -/
theorem moveAll_include_rewritten (E : Env) (T : ClangMoveTool)
    (hAct : endAction T = EndAction.MoveAll) (C CodeC : String) (Range : CharSourceRange)
    (hFile : E.SM.getFile (T.makeAbsolutePath E T.Context.Spec.OldCC) = some C)
    (hBuf : E.SM.Buffers C = some CodeC) (hNew : T.Context.Spec.NewCC ≠ "")
    (hRange : T.OldHeaderIncludeRange = some Range) (hIn : Range.File = C)
    (hLe : Range.Begin ≤ Range.End) :
    E.SM.Buffers Range.File = some CodeC
      ∧ CodeC
        = ⟨CodeC.data.take Range.Begin ++ (substr CodeC Range.Begin Range.End).data
            ++ CodeC.data.drop Range.End⟩
      ∧ (onEndOfTranslationUnit E T).Context.FileToReplacements.find T.Context.Spec.NewCC
        = [⟨T.Context.Spec.NewCC, 0, 0,
            ⟨CodeC.data.take Range.Begin ++ ('"' :: T.Context.Spec.NewHeader.data ++ ['"'])
              ++ CodeC.data.drop Range.End⟩⟩]
      ∧ applyAllReplacements ""
          ((onEndOfTranslationUnit E T).Context.FileToReplacements.find T.Context.Spec.NewCC)
        = ⟨CodeC.data.take Range.Begin ++ ('"' :: T.Context.Spec.NewHeader.data ++ ['"'])
            ++ CodeC.data.drop Range.End⟩ := by
  have hEnd : onEndOfTranslationUnit E T
      = moveAll E (moveAll E T T.Context.Spec.OldHeader T.Context.Spec.NewHeader)
          T.Context.Spec.OldCC T.Context.Spec.NewCC := by
    simp [onEndOfTranslationUnit, hAct]
  obtain ⟨hSpec, hDir, hR⟩ :=
    moveAll_Spec E T T.Context.Spec.OldHeader T.Context.Spec.NewHeader
  have hAbs := moveAll_makeAbsolutePath E T T.Context.Spec.OldHeader T.Context.Spec.NewHeader
  have hFile' : E.SM.getFile ((moveAll E T T.Context.Spec.OldHeader
      T.Context.Spec.NewHeader).makeAbsolutePath E T.Context.Spec.OldCC) = some C := by
    rw [hAbs]; exact hFile
  have h2 := moveAll_find_new E _ T.Context.Spec.OldCC T.Context.Spec.NewCC C CodeC
    hFile' hBuf hNew
  rw [hR, hRange, hSpec] at h2
  have hEq : Range.Begin + (Range.End - Range.Begin) = Range.End := by omega
  have hText : applyReplacement CodeC
      ⟨Range.File, Range.Begin, Range.End - Range.Begin,
        "\"" ++ T.Context.Spec.NewHeader ++ "\""⟩
      = ⟨CodeC.data.take Range.Begin ++ ('"' :: T.Context.Spec.NewHeader.data ++ ['"'])
          ++ CodeC.data.drop Range.End⟩ := by
    apply String.ext
    simp [applyReplacement, hEq]
  have hFind : (onEndOfTranslationUnit E T).Context.FileToReplacements.find
      T.Context.Spec.NewCC
      = [⟨T.Context.Spec.NewCC, 0, 0,
          ⟨CodeC.data.take Range.Begin ++ ('"' :: T.Context.Spec.NewHeader.data ++ ['"'])
            ++ CodeC.data.drop Range.End⟩⟩] := by
    rw [hEnd, h2]
    simp only [beq_self_eq_true, if_true, Replacements.merge, hText]
  have hSplit : CodeC
      = ⟨CodeC.data.take Range.Begin ++ (substr CodeC Range.Begin Range.End).data
          ++ CodeC.data.drop Range.End⟩ := by
    apply String.ext
    have hDrop : CodeC.data.drop Range.End
        = (CodeC.data.drop Range.Begin).drop (Range.End - Range.Begin) := by
      rw [List.drop_drop]
      congr 1
      omega
    simp only [substr]
    rw [List.append_assoc, hDrop, List.take_append_drop, List.take_append_drop]
  exact ⟨by rw [hIn]; exact hBuf, hSplit, hFind,
    by rw [hFind]; exact applyAllReplacements_insertion _ _⟩

/-- Witness of `moveAll_include_rewritten`: `old.cc` includes `<old.h>`. -/
theorem moveAll_include_rewritten_witness :
    endAction wholeToolInclude = EndAction.MoveAll
      ∧ wholeToolInclude.OldHeaderIncludeRange = some ⟨"old.cc", 9, 16⟩
      ∧ applyAllReplacements ""
          ((onEndOfTranslationUnit exampleEnv wholeToolInclude).Context.FileToReplacements.find
            wholeToolInclude.Context.Spec.NewCC)
        = ⟨("#include <old.h>\nusing std::x;\nint f() \x7b\x7d\n" : String).data.take 9
            ++ ('"' :: wholeToolInclude.Context.Spec.NewHeader.data ++ ['"'])
            ++ ("#include <old.h>\nusing std::x;\nint f() \x7b\x7d\n" : String).data.drop 16⟩ :=
  ⟨by decide, by decide,
    (moveAll_include_rewritten exampleEnv wholeToolInclude (by decide) "old.cc"
      "#include <old.h>\nusing std::x;\nint f() \x7b\x7d\n" ⟨"old.cc", 9, 16⟩
      (by decide) (by decide) (by decide) (by decide) (by decide) (by decide)).2.2.2⟩

/-- C10, as stated, fails: `old.cc` includes the old header with angle
brackets, `#include <old.h>`; after the whole-file move the new implementation
file includes the new header with double quotes, not with angle brackets. -/
theorem moveAll_include_counterexample :
    endAction wholeToolInclude = EndAction.MoveAll
      ∧ wholeToolInclude.OldHeaderIncludeRange = some ⟨"old.cc", 9, 16⟩
      ∧ substr "#include <old.h>\nusing std::x;\nint f() \x7b\x7d\n" 9 16 = "<old.h>"
      ∧ applyAllReplacements ""
          ((onEndOfTranslationUnit exampleEnv wholeToolInclude).Context.FileToReplacements.find
            "new.cc")
        = "#include \"new.h\"\nusing std::x;\nint f() \x7b\x7d\n"
      ∧ applyAllReplacements ""
          ((onEndOfTranslationUnit exampleEnv wholeToolInclude).Context.FileToReplacements.find
            "new.cc")
        ≠ "#include <new.h>\nusing std::x;\nint f() \x7b\x7d\n" := by
  decide

/-! ## Classification: results -/

theorem onMatch_Context (T : ClangMoveTool) (Result : MatchResult) :
    (onMatch T Result).Context = T.Context := by
  obtain ⟨B, N⟩ := Result
  cases B <;>
    simp only [onMatch, ClangMoveTool.run, ClassDeclarationMatch.run,
      ClassDeclarationMatch.MatchClassMethod, ClassDeclarationMatch.MatchClassStaticVariable,
      ClassDeclarationMatch.MatchClassDeclaration, FunctionDeclarationMatch.run,
      ClangMoveTool.addRemovedDecl] <;>
    (repeat' split) <;> rfl

theorem onMatch_RemovedDecls (T : ClangMoveTool) (B : Binding) (N : Node)
    (h : B.keepsRemovedDecls = true) :
    (onMatch T ⟨B, N⟩).RemovedDecls = T.RemovedDecls := by
  cases B <;> simp [Binding.keepsRemovedDecls] at h
  all_goals simp only [onMatch, ClangMoveTool.run]
  all_goals (repeat' split)
  all_goals rfl

theorem onMatch_Reported (T : ClangMoveTool) (Result : MatchResult) :
    (onMatch T Result).Reported = T.Reported := by
  obtain ⟨B, N⟩ := Result
  cases B <;>
    simp only [onMatch, ClangMoveTool.run, ClassDeclarationMatch.run,
      ClassDeclarationMatch.MatchClassMethod, ClassDeclarationMatch.MatchClassStaticVariable,
      ClassDeclarationMatch.MatchClassDeclaration, FunctionDeclarationMatch.run,
      ClangMoveTool.addRemovedDecl] <;>
    (repeat' split) <;> rfl

theorem foldl_onMatch_Context (N : Node) (Ms : List (Binding × (Node → Bool)))
    (T : ClangMoveTool) :
    (Ms.foldl (fun T M => onMatch T ⟨M.1, N⟩) T).Context = T.Context
      ∧ (Ms.foldl (fun T M => onMatch T ⟨M.1, N⟩) T).Reported = T.Reported := by
  induction Ms generalizing T with
  | nil => exact ⟨rfl, rfl⟩
  | cons M Ms ih =>
    simp only [List.foldl_cons]
    rw [(ih _).1, (ih _).2, onMatch_Context, onMatch_Reported]
    exact ⟨rfl, rfl⟩

theorem matchNode_Context (Ms : List (Binding × (Node → Bool))) (T : ClangMoveTool)
    (N : Node) :
    (matchNode Ms T N).Context = T.Context ∧ (matchNode Ms T N).Reported = T.Reported :=
  foldl_onMatch_Context N _ T

theorem foldl_onMatch_RemovedDecls (N : Node) (Ms : List (Binding × (Node → Bool)))
    (T : ClangMoveTool) (h : ∀ M ∈ Ms, M.1.keepsRemovedDecls = true) :
    (Ms.foldl (fun T M => onMatch T ⟨M.1, N⟩) T).RemovedDecls = T.RemovedDecls := by
  induction Ms generalizing T with
  | nil => rfl
  | cons M Ms ih =>
    simp only [List.foldl_cons]
    rw [ih _ (fun M' hM' => h M' (List.mem_cons_of_mem _ hM')),
      onMatch_RemovedDecls _ _ _ (h M (List.mem_cons_self _ _))]

theorem matchNode_RemovedDecls (Ms : List (Binding × (Node → Bool))) (T : ClangMoveTool)
    (N : Node) (h : ∀ M ∈ Ms, M.2 N = true → M.1.keepsRemovedDecls = true) :
    (matchNode Ms T N).RemovedDecls = T.RemovedDecls := by
  apply foldl_onMatch_RemovedDecls
  intro M hM
  rw [List.mem_filter] at hM
  exact h M hM.1 hM.2

theorem addIncludes_frame (E : Env) (T : ClangMoveTool) (IncludeHeader : String)
    (IsAngled : Bool) (SearchPath FileName : String) (Range : CharSourceRange) :
    (addIncludes E T IncludeHeader IsAngled SearchPath FileName Range).Context = T.Context
      ∧ (addIncludes E T IncludeHeader IsAngled SearchPath FileName Range).RemovedDecls
          = T.RemovedDecls
      ∧ (addIncludes E T IncludeHeader IsAngled SearchPath FileName Range).MovedDecls
          = T.MovedDecls
      ∧ (addIncludes E T IncludeHeader IsAngled SearchPath FileName
            Range).UnremovedDeclsInOldHeader = T.UnremovedDeclsInOldHeader
      ∧ (addIncludes E T IncludeHeader IsAngled SearchPath FileName Range).Reported
          = T.Reported := by
  unfold addIncludes
  simp only
  split
  · exact ⟨rfl, rfl, rfl, rfl, rfl⟩
  · split
    · exact ⟨rfl, rfl, rfl, rfl, rfl⟩
    · split <;> exact ⟨rfl, rfl, rfl, rfl, rfl⟩

theorem onEvent_Context (E : Env) (Ms : List (Binding × (Node → Bool))) (T : ClangMoveTool)
    (Ev : Event) :
    (onEvent E Ms T Ev).Context = T.Context ∧ (onEvent E Ms T Ev).Reported = T.Reported := by
  cases Ev with
  | Declaration N => exact matchNode_Context Ms T N
  | Inclusion FileName IsAngled SearchPath File Range =>
    cases File with
    | none => exact ⟨rfl, rfl⟩
    | some FE =>
      exact ⟨(addIncludes_frame E T FileName IsAngled SearchPath FE Range).1,
        (addIncludes_frame E T FileName IsAngled SearchPath FE Range).2.2.2.2⟩

theorem foldl_onEvent_Context (E : Env) (Ms : List (Binding × (Node → Bool)))
    (Events : List Event) (T : ClangMoveTool) :
    (Events.foldl (onEvent E Ms) T).Context = T.Context
      ∧ (Events.foldl (onEvent E Ms) T).Reported = T.Reported := by
  induction Events generalizing T with
  | nil => exact ⟨rfl, rfl⟩
  | cons Ev Events ih =>
    simp only [List.foldl_cons]
    rw [(ih _).1, (ih _).2, (onEvent_Context E Ms T Ev).1, (onEvent_Context E Ms T Ev).2]
    exact ⟨rfl, rfl⟩

theorem processStream_Context (E : Env) (Context : ClangMoveContext) (Events : List Event) :
    (processStream E Context Events).Context = Context
      ∧ (processStream E Context Events).Reported = [] := by
  unfold processStream
  rw [(foldl_onEvent_Context E _ Events _).1, (foldl_onEvent_Context E _ Events _).2]
  exact ⟨rfl, rfl⟩

theorem foldl_onEvent_RemovedDecls (E : Env) (Ms : List (Binding × (Node → Bool)))
    (Events : List Event) (T : ClangMoveTool)
    (h : ∀ N, Event.Declaration N ∈ Events →
      ∀ M ∈ Ms, M.2 N = true → M.1.keepsRemovedDecls = true) :
    (Events.foldl (onEvent E Ms) T).RemovedDecls = T.RemovedDecls := by
  induction Events generalizing T with
  | nil => rfl
  | cons Ev Events ih =>
    simp only [List.foldl_cons]
    rw [ih _ (fun N hN => h N (List.mem_cons_of_mem _ hN))]
    cases Ev with
    | Declaration N =>
      exact matchNode_RemovedDecls Ms T N (h N (List.mem_cons_self _ _))
    | Inclusion FileName IsAngled SearchPath File Range =>
      cases File with
      | none => rfl
      | some FE => exact (addIncludes_frame E T FileName IsAngled SearchPath FE Range).2.1

theorem onEndOfTranslationUnit_nothing (E : Env) (T : ClangMoveTool)
    (hDump : T.Context.DumpDeclarations = false) (hRemoved : T.RemovedDecls = []) :
    onEndOfTranslationUnit E T = T := by
  simp [onEndOfTranslationUnit, endAction, hDump, hRemoved]

theorem insertDecl_nodup (S : List Decl) (D : Decl) (h : S.Nodup) : (insertDecl S D).Nodup := by
  unfold insertDecl
  split
  · exact h
  · rename_i hD
    rw [List.nodup_append]
    refine ⟨h, List.nodup_singleton D, ?_⟩
    intro a ha hb
    simp only [List.mem_singleton] at hb
    subst hb
    exact hD ha

theorem onMatch_Unremoved_nodup (T : ClangMoveTool) (Result : MatchResult)
    (h : T.UnremovedDeclsInOldHeader.Nodup) :
    (onMatch T Result).UnremovedDeclsInOldHeader.Nodup := by
  obtain ⟨B, N⟩ := Result
  cases B <;>
    simp only [onMatch, ClangMoveTool.run, ClassDeclarationMatch.run,
      ClassDeclarationMatch.MatchClassMethod, ClassDeclarationMatch.MatchClassStaticVariable,
      ClassDeclarationMatch.MatchClassDeclaration, FunctionDeclarationMatch.run,
      ClangMoveTool.addRemovedDecl] <;>
    (repeat' split) <;>
    first
      | exact h
      | exact insertDecl_nodup _ _ h
      | exact List.Nodup.erase _ h

theorem foldl_onEvent_Unremoved_nodup (E : Env) (Ms : List (Binding × (Node → Bool)))
    (Events : List Event) (T : ClangMoveTool) (h : T.UnremovedDeclsInOldHeader.Nodup) :
    (Events.foldl (onEvent E Ms) T).UnremovedDeclsInOldHeader.Nodup := by
  induction Events generalizing T with
  | nil => exact h
  | cons Ev Events ih =>
    simp only [List.foldl_cons]
    apply ih
    cases Ev with
    | Declaration N =>
      simp only [onEvent, matchNode]
      generalize Ms.filter (fun M => M.2 N) = L
      induction L generalizing T with
      | nil => exact h
      | cons M L ihL =>
        simp only [List.foldl_cons]
        exact ihL _ (onMatch_Unremoved_nodup T _ h)
    | Inclusion FileName IsAngled SearchPath File Range =>
      cases File with
      | none => exact h
      | some FE =>
        simp only [onEvent]
        rw [(addIncludes_frame E T FileName IsAngled SearchPath FE Range).2.2.2.1]
        exact h

/-- C11. In dump mode `onEndOfTranslationUnit` appends to the reports one pair
for each declaration of `UnremovedDeclsInOldHeader` whose kind is reported and
nothing for the others: the qualified name with the label `Function` for a
function or function template, with the label `Class` for a class or class
template.  After a whole stream the set holds no declaration twice, so each
such declaration is reported exactly once, and the map from files to
replacements is the one the tool started with. -/
theorem onEndOfTranslationUnit_dump (E : Env) (Context : ClangMoveContext)
    (Events : List Event) (hDump : Context.DumpDeclarations = true) :
    (runTool E Context Events).Reported
        = (processStream E Context Events).UnremovedDeclsInOldHeader.filterMap
            reportDeclaration
      ∧ (processStream E Context Events).UnremovedDeclsInOldHeader.Nodup
      ∧ (∀ D : Decl,
          (D.DeclKind = Kind.Function ∨ D.DeclKind = Kind.FunctionTemplate →
              reportDeclaration D = some (D.QualifiedName, "Function"))
            ∧ (D.DeclKind = Kind.ClassTemplate ∨ D.DeclKind = Kind.CXXRecord →
              reportDeclaration D = some (D.QualifiedName, "Class"))
            ∧ (D.DeclKind ≠ Kind.Function ∧ D.DeclKind ≠ Kind.FunctionTemplate
                ∧ D.DeclKind ≠ Kind.ClassTemplate ∧ D.DeclKind ≠ Kind.CXXRecord →
              reportDeclaration D = none))
      ∧ (runTool E Context Events).Context.FileToReplacements = Context.FileToReplacements
      ∧ ∀ T : ClangMoveTool, T.Context.DumpDeclarations = true →
          (onEndOfTranslationUnit E T).Reported
              = T.Reported ++ T.UnremovedDeclsInOldHeader.filterMap reportDeclaration
            ∧ (onEndOfTranslationUnit E T).Context.FileToReplacements
              = T.Context.FileToReplacements := by
  have hGeneral : ∀ T : ClangMoveTool, T.Context.DumpDeclarations = true →
      (onEndOfTranslationUnit E T).Reported
          = T.Reported ++ T.UnremovedDeclsInOldHeader.filterMap reportDeclaration
        ∧ (onEndOfTranslationUnit E T).Context.FileToReplacements
          = T.Context.FileToReplacements := by
    intro T hT
    simp [onEndOfTranslationUnit, endAction, hT]
  obtain ⟨hCtx, hRep⟩ := processStream_Context E Context Events
  have hT : (processStream E Context Events).Context.DumpDeclarations = true := by
    rw [hCtx]; exact hDump
  refine ⟨?_, ?_, ?_, ?_, hGeneral⟩
  · rw [runTool, (hGeneral _ hT).1, hRep, List.nil_append]
  · exact foldl_onEvent_Unremoved_nodup E _ Events _ List.nodup_nil
  · intro D
    refine ⟨?_, ?_, ?_⟩
    · intro h
      simp [reportDeclaration, h]
    · intro h
      rcases h with h | h <;> simp [reportDeclaration, h]
    · rintro ⟨h1, h2, h3, h4⟩
      simp [reportDeclaration, h1, h2, h3, h4]
  · rw [runTool, (hGeneral _ hT).2, hCtx]

/-- Witness of `onEndOfTranslationUnit_dump`: dumping `old.h` with the classes
`A::B::X` and `A::B::Y` reports both as classes. -/
theorem onEndOfTranslationUnit_dump_witness :
    dumpContext.DumpDeclarations = true
      ∧ (runTool exampleEnv dumpContext exampleEvents).Reported
          = (processStream exampleEnv dumpContext exampleEvents).UnremovedDeclsInOldHeader.filterMap
              reportDeclaration
      ∧ (runTool exampleEnv dumpContext exampleEvents).Reported
          = [("A::B::X", "Class"), ("A::B::Y", "Class")] :=
  ⟨by decide, (onEndOfTranslationUnit_dump exampleEnv dumpContext exampleEvents (by decide)).1,
    by decide⟩

/-- C12. Without requested symbols and outside dump mode, whatever the stream
of declarations and include directives, no declaration is recorded for
removal, the end of the translation unit changes nothing, and the map from
files to replacements is the one the tool started with: empty when it started
empty. -/
theorem runTool_no_symbols (E : Env) (Context : ClangMoveContext) (Events : List Event)
    (hNames : Context.Spec.Names = []) (hDump : Context.DumpDeclarations = false) :
    (processStream E Context Events).RemovedDecls = []
      ∧ runTool E Context Events = processStream E Context Events
      ∧ (runTool E Context Events).Context.FileToReplacements = Context.FileToReplacements
      ∧ (Context.FileToReplacements = [] →
          ∀ F : String, (runTool E Context Events).Context.FileToReplacements.find F = []) := by
  obtain ⟨hCtx, _⟩ := processStream_Context E Context Events
  have hRemoved : (processStream E Context Events).RemovedDecls = [] := by
    unfold processStream
    rw [foldl_onEvent_RemovedDecls]
    · rfl
    · intro N _ M hM _
      simp only [registerMatchers, hDump, hNames, HasAnySymbolNames, List.foldl_nil,
        Bool.false_eq_true, if_false, List.append_nil, List.mem_append, List.mem_singleton,
        List.mem_cons, List.mem_nil_iff, or_false] at hM
      rcases hM with rfl | rfl | rfl | rfl <;> rfl
  have hEnd : runTool E Context Events = processStream E Context Events := by
    apply onEndOfTranslationUnit_nothing
    · rw [hCtx]; exact hDump
    · exact hRemoved
  refine ⟨hRemoved, hEnd, by rw [hEnd, hCtx], ?_⟩
  intro hEmpty F
  rw [hEnd, hCtx, hEmpty]
  rfl

/-- Witness of `runTool_no_symbols`: the stream of `old.h`/`old.cc` with no
symbol requested. -/
theorem runTool_no_symbols_witness :
    noNamesContext.Spec.Names = [] ∧ noNamesContext.DumpDeclarations = false
      ∧ (runTool exampleEnv noNamesContext exampleEvents).Context.FileToReplacements
          = noNamesContext.FileToReplacements :=
  ⟨by decide, by decide,
    (runTool_no_symbols exampleEnv noNamesContext exampleEvents (by decide) (by decide)).2.2.1⟩

theorem registerMatchers_stripped (E : Env) (Context : ClangMoveContext) (N : Node)
    (hN : matchesRequested Context N = false) :
    ∀ M ∈ registerMatchers E Context, M.2 N = true → M.1.keepsRemovedDecls = true := by
  intro M hM hMatch
  unfold matchesRequested at hN
  unfold registerMatchers at hM
  cases hH : HasAnySymbolNames Context.Spec.Names with
  | none =>
    rw [hH] at hM
    cases hD : Context.DumpDeclarations <;> rw [hD] at hM <;>
      simp only [Bool.false_eq_true, if_false, if_true, List.append_nil, List.mem_append,
        List.mem_singleton, List.mem_cons, List.mem_nil_iff, or_false] at hM
    · rcases hM with rfl | rfl | rfl | rfl <;> rfl
    · subst hM; rfl
  | some H =>
    rw [hH] at hM hN
    simp only [Bool.or_eq_false_iff] at hN
    obtain ⟨⟨hName, hIn⟩, hOf⟩ := hN
    cases hD : Context.DumpDeclarations <;> rw [hD] at hM <;>
      simp only [Bool.false_eq_true, if_false, if_true, List.append_nil, List.mem_append,
        List.mem_singleton, List.mem_cons, List.mem_nil_iff, or_false] at hM
    · rcases hM with rfl | (rfl | rfl | rfl) | (rfl | rfl | rfl | rfl | rfl)
      · rfl
      · rfl
      · rfl
      · rfl
      · rfl
      · simp [MovedClass, hName] at hMatch
      · simp [ClassMethod, hOf] at hMatch
      · simp [ClassStaticVarDecl, hIn] at hMatch
      · simp [MovedFunction, hName] at hMatch
    · subst hM; rfl

theorem Stripped_mem (Context : ClangMoveContext) (Events : List Event)
    (h : Stripped Context Events = true) (N : Node) (hN : Event.Declaration N ∈ Events) :
    matchesRequested Context N = false := by
  unfold Stripped at h
  rw [List.all_eq_true] at h
  have := h _ hN
  simpa using this

/-- C13, as the code behaves. For a stream in which no declaration matches a
requested symbol (by its own qualified name, by a requested outermost
enclosing class, or as a method of a requested outermost class), outside dump
mode, no declaration is recorded for removal, the end of the translation unit
changes nothing, and the map from files to replacements is the one the tool
started with.  The moved list itself need not be empty. -/
theorem runTool_stripped (E : Env) (Context : ClangMoveContext) (Events : List Event)
    (hDump : Context.DumpDeclarations = false) (hStripped : Stripped Context Events = true) :
    (processStream E Context Events).RemovedDecls = []
      ∧ runTool E Context Events = processStream E Context Events
      ∧ (runTool E Context Events).Context.FileToReplacements
          = Context.FileToReplacements := by
  obtain ⟨hCtx, _⟩ := processStream_Context E Context Events
  have hRemoved : (processStream E Context Events).RemovedDecls = [] := by
    unfold processStream
    rw [foldl_onEvent_RemovedDecls]
    · rfl
    · intro N hN
      exact registerMatchers_stripped E Context N (Stripped_mem Context Events hStripped N hN)
  have hEnd : runTool E Context Events = processStream E Context Events := by
    apply onEndOfTranslationUnit_nothing
    · rw [hCtx]; exact hDump
    · exact hRemoved
  exact ⟨hRemoved, hEnd, by rw [hEnd, hCtx]⟩

/-- Witness of `runTool_stripped`: `old.h`/`old.cc` after `A::B::X` was taken
out. -/
theorem runTool_stripped_witness :
    exampleContext.DumpDeclarations = false ∧ Stripped exampleContext strippedEvents = true
      ∧ (processStream exampleEnv exampleContext strippedEvents).RemovedDecls = []
      ∧ runTool exampleEnv exampleContext strippedEvents
          = processStream exampleEnv exampleContext strippedEvents
      ∧ (runTool exampleEnv exampleContext strippedEvents).Context.FileToReplacements
          = exampleContext.FileToReplacements :=
  ⟨by decide, by decide,
    runTool_stripped exampleEnv exampleContext strippedEvents (by decide) (by decide)⟩

/-- C13, as stated, fails: in `old.h`/`old.cc` without `A::B::X` no
declaration matches the requested symbol, yet `using std::x;` of `old.cc` is
classified as moved: the moved list is not empty. -/
theorem runTool_stripped_counterexample :
    exampleContext.Spec.Names = ["A::B::X"]
      ∧ Stripped exampleContext strippedEvents = true
      ∧ (processStream exampleEnv exampleContext strippedEvents).MovedDecls = [declUsing]
      ∧ (processStream exampleEnv exampleContext strippedEvents).MovedDecls ≠ [] := by
  decide

/-- C15, as the code behaves. Outside dump mode, a class declaration of the
old header that is neither implicit nor a definition triggers the `fwd_decl`
callback only, and that callback appends it to the moved list (its class
template when it is the pattern of one) exactly when no declaration has been
recorded for removal so far; otherwise the moved list stays as it is.  The
lists of removed and unremoved declarations are not changed. -/
theorem forward_declaration_moved (E : Env) (Context : ClangMoveContext) (T : ClangMoveTool)
    (N : Node) (hDump : Context.DumpDeclarations = false) (hFwd : ForwardDecls N = true)
    (hIn : InOldHeader E Context N = true) :
    matchNode (registerMatchers E Context) T N = ClangMoveTool.run T ⟨Binding.fwd_decl, N⟩
      ∧ (matchNode (registerMatchers E Context) T N).MovedDecls
          = (if T.RemovedDecls.isEmpty then T.MovedDecls ++ [N.DescribedTemplate.getD N.D]
              else T.MovedDecls)
      ∧ (matchNode (registerMatchers E Context) T N).RemovedDecls = T.RemovedDecls
      ∧ (matchNode (registerMatchers E Context) T N).UnremovedDeclsInOldHeader
          = T.UnremovedDeclsInOldHeader := by
  have hF := hFwd
  simp only [ForwardDecls, Bool.and_eq_true, beq_iff_eq, Bool.not_eq_true',
    Bool.or_eq_false_iff] at hF
  obtain ⟨hKind, hImplicit, hDef⟩ := hF
  have h1 : AllDeclsInHeader E Context N = false := by
    simp [AllDeclsInHeader, hFwd]
  have h2 : ForwardDeclsInOldHeader E Context N = true := by
    simp [ForwardDeclsInOldHeader, hFwd, hIn]
  have h3 : UsingDecls E Context N = false := by
    unfold UsingDecls; rw [hKind]; rfl
  have h4 : AnonymousNamespace E Context N = false := by
    unfold AnonymousNamespace; rw [hKind]; rfl
  have h5 : ∀ H, StaticDecls E Context H N = false := by
    intro H; unfold StaticDecls functionDecl; rw [hKind]; rfl
  have h6 : ∀ H, MovedClass E Context H N = false := by
    intro H; simp [MovedClass, hDef]
  have h7 : ∀ H, ClassMethod E Context H N = false := by
    intro H; unfold ClassMethod; rw [hKind]; rfl
  have h8 : ∀ H, ClassStaticVarDecl E Context H N = false := by
    intro H; unfold ClassStaticVarDecl; rw [hKind]; rfl
  have h9 : ∀ H, MovedFunction E Context H N = false := by
    intro H; unfold MovedFunction functionDecl; rw [hKind]; rfl
  have hMatch : matchNode (registerMatchers E Context) T N
      = ClangMoveTool.run T ⟨Binding.fwd_decl, N⟩ := by
    cases hH : HasAnySymbolNames Context.Spec.Names <;>
      simp [matchNode, registerMatchers, hDump, hH, List.filter, h1, h2, h3, h4, h5, h6,
        h7, h8, h9, onMatch]
  refine ⟨hMatch, ?_, ?_, ?_⟩
  · rw [hMatch]
    simp only [ClangMoveTool.run]
    cases hR : T.RemovedDecls.isEmpty <;> cases hT : N.DescribedTemplate <;> simp
  · rw [hMatch]
    simp only [ClangMoveTool.run]
    split
    · split <;> rfl
    · rfl
  · rw [hMatch]
    simp only [ClangMoveTool.run]
    split
    · split <;> rfl
    · rfl

/-- Witness of `forward_declaration_moved`: the forward declaration `class B;`
of `fwd.h` arrives after `class A;` has been moved. -/
theorem forward_declaration_moved_witness :
    fwdContext.DumpDeclarations = false
      ∧ ForwardDecls { D := declFwdB } = true
      ∧ InOldHeader exampleEnv fwdContext { D := declFwdB } = true
      ∧ (matchNode (registerMatchers exampleEnv fwdContext)
            (processStream exampleEnv fwdContext [Event.Declaration { D := declFwdA }])
            { D := declFwdB }).MovedDecls
          = (if (processStream exampleEnv fwdContext
                  [Event.Declaration { D := declFwdA }]).RemovedDecls.isEmpty
              then (processStream exampleEnv fwdContext
                  [Event.Declaration { D := declFwdA }]).MovedDecls
                ++ [({ D := declFwdB } : Node).DescribedTemplate.getD
                    ({ D := declFwdB } : Node).D]
              else (processStream exampleEnv fwdContext
                  [Event.Declaration { D := declFwdA }]).MovedDecls) :=
  ⟨by decide, by decide, by decide,
    (forward_declaration_moved exampleEnv fwdContext
      (processStream exampleEnv fwdContext [Event.Declaration { D := declFwdA }])
      { D := declFwdB } (by decide) (by decide) (by decide)).2.1⟩

/-- C15, as stated, fails: in `fwd.h` the forward declaration `class B;`
arrives when the moved list already holds `class A;`, and it is appended all
the same; only `class D;`, which follows the definition of the requested class
`C`, is dropped. -/
theorem forward_declaration_counterexample :
    (processStream exampleEnv fwdContext [Event.Declaration { D := declFwdA }]).MovedDecls
        = [declFwdA]
      ∧ (processStream exampleEnv fwdContext
            [Event.Declaration { D := declFwdA }, Event.Declaration { D := declFwdB }]).MovedDecls
          = [declFwdA, declFwdB]
      ∧ (processStream exampleEnv fwdContext fwdEvents).MovedDecls
          = [declFwdA, declFwdB, declC] := by
  decide

/-- The two cases of `addIncludes`.  For an include directive whose resolved
target is the old header it appends nothing and stores the range of the file
name token in the one variable `OldHeaderIncludeRange`, replacing what was
stored, whatever the including file.  Otherwise the range is kept and the line
`#include <X>` (angled) or `#include "X"` (quoted) is appended to the header
includes exactly when the including file is the old header, and to the
implementation includes exactly when the including file is the old
implementation file and not the old header. -/
theorem addIncludes_cases (E : Env) (T : ClangMoveTool) (IncludeHeader : String)
    (IsAngled : Bool) (SearchPath FileName : String) (Range : CharSourceRange) :
    (T.makeAbsolutePath E T.Context.Spec.OldHeader
          = E.SM.MakeAbsolutePath (E.path_append SearchPath IncludeHeader) →
        addIncludes E T IncludeHeader IsAngled SearchPath FileName Range
          = { T with OldHeaderIncludeRange := some Range })
      ∧ (T.makeAbsolutePath E T.Context.Spec.OldHeader
            ≠ E.SM.MakeAbsolutePath (E.path_append SearchPath IncludeHeader) →
          (addIncludes E T IncludeHeader IsAngled SearchPath FileName
              Range).OldHeaderIncludeRange = T.OldHeaderIncludeRange
            ∧ (addIncludes E T IncludeHeader IsAngled SearchPath FileName Range).HeaderIncludes
              = (if T.makeAbsolutePath E T.Context.Spec.OldHeader
                    = E.SM.MakeAbsolutePath FileName
                  then T.HeaderIncludes
                    ++ [if IsAngled then "#include <" ++ IncludeHeader ++ ">\n"
                        else "#include \"" ++ IncludeHeader ++ "\"\n"]
                  else T.HeaderIncludes)
            ∧ (addIncludes E T IncludeHeader IsAngled SearchPath FileName Range).CCIncludes
              = (if T.makeAbsolutePath E T.Context.Spec.OldHeader
                      ≠ E.SM.MakeAbsolutePath FileName
                    ∧ T.makeAbsolutePath E T.Context.Spec.OldCC
                      = E.SM.MakeAbsolutePath FileName
                  then T.CCIncludes
                    ++ [if IsAngled then "#include <" ++ IncludeHeader ++ ">\n"
                        else "#include \"" ++ IncludeHeader ++ "\"\n"]
                  else T.CCIncludes)) := by
  constructor
  · intro h
    simp [addIncludes, h]
  · intro h
    unfold addIncludes
    simp only [beq_iff_eq, h, if_false]
    by_cases h1 : T.makeAbsolutePath E T.Context.Spec.OldHeader = E.SM.MakeAbsolutePath FileName
    · simp only [h1, if_true, ne_eq, not_true_eq_false, false_and, if_false, and_self]
    · by_cases h2 : T.makeAbsolutePath E T.Context.Spec.OldCC = E.SM.MakeAbsolutePath FileName
      · simp only [h1, h2, if_true, if_false, ne_eq, not_false_eq_true, and_self]
      · simp only [h1, h2, if_false, ne_eq, not_false_eq_true, and_false, and_self]

/-- C16. The old implementation file `old.cc` includes `<old.h>` and then
`"other.h"`, which includes `"old.h"` itself; the class `X` and the function
`f`, all there is in `old.h` and `old.cc`, are requested.  After the first
directive the remembered range is the one of `old.cc`; the directive of
`other.h` replaces it, so after the stream the range remembered is the one in
`other.h` and the one of the implementation file is lost.  The whole-file
move then rewrites the offsets 22 to 29 of the copy of `old.cc`: the new
implementation file still includes `<old.h>` and its second directive is
broken.  Without the directive of `other.h` the same run rewrites the include
of `old.cc` itself. -/
theorem addIncludes_range_overwritten :
    guardedSM.Buffers "old.cc"
        = some "#include <old.h>\n#include \"other.h\"\nint f() \x7b\x7d\n"
      ∧ guardedSM.Buffers "other.h" = some "#pragma once\n#include \"old.h\"\n"
      ∧ guardedSM.Buffers "old.h" = some "#pragma once\nclass X \x7b\x7d;\n"
      ∧ (processStream guardedEnv guardedContext
            [Event.Inclusion "old.h" true "" (some "old.cc")
              ⟨"old.cc", 9, 16⟩]).OldHeaderIncludeRange
          = some ⟨"old.cc", 9, 16⟩
      ∧ (processStream guardedEnv guardedContext guardedEvents).OldHeaderIncludeRange
          = some ⟨"other.h", 22, 29⟩
      ∧ (processStream guardedEnv guardedContext guardedEvents).MovedDecls = [declGX, declGF]
      ∧ endAction (processStream guardedEnv guardedContext guardedEvents) = EndAction.MoveAll
      ∧ (runTool guardedEnv guardedContext guardedEvents).Context.FileToReplacements.find
            "new.cc"
          = [⟨"new.cc", 0, 0,
              "#include <old.h>\n#incl\"new.h\"her.h\"\nint f() \x7b\x7d\n"⟩]
      ∧ (runTool guardedEnv guardedContext
            (guardedEvents.eraseIdx 2)).Context.FileToReplacements.find "new.cc"
          = [⟨"new.cc", 0, 0,
              "#include \"new.h\"\n#include \"other.h\"\nint f() \x7b\x7d\n"⟩] := by
  decide

/-! ### Appends to the moved list -/

theorem Kind.beq_eq_decide (a b : Kind) : (a == b) = decide (a = b) := by
  cases a <;> cases b <;> rfl

theorem method_not_namespace_context (H : String → Bool) (N : Node)
    (h : ofOutermostEnclosingClass H N = true) :
    hasNamespaceOrTranslationUnitContext N = false := by
  unfold ofOutermostEnclosingClass at h
  unfold hasNamespaceOrTranslationUnitContext
  cases hC : N.D.Contexts with
  | nil => rfl
  | cons C rest =>
    rw [hC] at h
    cases C <;> simp_all [isNamespaceOrTranslationUnit]

theorem registerMatchers_one_mover (E : Env) (Context : ClangMoveContext) (N : Node)
    (h : helperAlsoRequested E Context N = false) :
    ((registerMatchers E Context).filter (fun M => M.2 N && M.1.movesDecl)).length ≤ 1 := by
  unfold helperAlsoRequested at h
  unfold registerMatchers
  cases hD : Context.DumpDeclarations
  · cases hH : HasAnySymbolNames Context.Spec.Names with
    | none =>
      cases hK : N.D.DeclKind <;>
        simp [List.filter, Binding.movesDecl, ForwardDeclsInOldHeader, ForwardDecls, UsingDecls,
          AnonymousNamespace, hK, Kind.beq_eq_decide] <;>
        split <;> simp
    | some H =>
      rw [hH] at h
      have hM := method_not_namespace_context H N
      cases hK : N.D.DeclKind <;>
        simp [List.filter, Binding.movesDecl, ForwardDeclsInOldHeader, ForwardDecls, UsingDecls,
          AnonymousNamespace, StaticDecls, MovedClass, ClassMethod, ClassStaticVarDecl,
          MovedFunction, functionDecl, hK, Kind.beq_eq_decide] <;>
        (repeat' split) <;>
        simp_all [StaticDecls, MovedFunction, ClassMethod, functionDecl, Kind.beq_eq_decide]
  · simp [List.filter, Binding.movesDecl]

theorem onMatch_MovedDecls (T : ClangMoveTool) (B : Binding) (N : Node) :
    ∃ l, (onMatch T ⟨B, N⟩).MovedDecls = T.MovedDecls ++ l
      ∧ l.length ≤ (if B.movesDecl then 1 else 0)
      ∧ ∀ x ∈ l, x ∈ N.Decls := by
  cases hT : N.DescribedTemplate with
  | none =>
    cases B
    case decls_in_header => exact ⟨[], by simp [onMatch, ClangMoveTool.run], by simp, by simp⟩
    case fwd_decl =>
      cases hR : T.RemovedDecls.isEmpty
      · exact ⟨[], by simp [onMatch, ClangMoveTool.run, hR], by simp, by simp⟩
      · exact ⟨[N.D], by simp [onMatch, ClangMoveTool.run, hR, hT],
          by simp [Binding.movesDecl], by simp [Node.Decls]⟩
    case class_method =>
      cases hI : N.isInlined
      · exact ⟨[N.D], by
            simp [onMatch, ClassDeclarationMatch.run, ClassDeclarationMatch.MatchClassMethod,
              ClangMoveTool.addRemovedDecl, hI, hT],
          by simp [Binding.movesDecl], by simp [Node.Decls]⟩
      · exact ⟨[], by
            simp [onMatch, ClassDeclarationMatch.run, ClassDeclarationMatch.MatchClassMethod, hI],
          by simp, by simp⟩
    all_goals
      exact ⟨[N.D], by
          simp [onMatch, ClangMoveTool.run, ClassDeclarationMatch.run,
            ClassDeclarationMatch.MatchClassStaticVariable,
            ClassDeclarationMatch.MatchClassDeclaration, FunctionDeclarationMatch.run,
            ClangMoveTool.addRemovedDecl, hT],
        by simp [Binding.movesDecl], by simp [Node.Decls]⟩
  | some Template =>
    cases B
    case decls_in_header => exact ⟨[], by simp [onMatch, ClangMoveTool.run], by simp, by simp⟩
    case fwd_decl =>
      cases hR : T.RemovedDecls.isEmpty
      · exact ⟨[], by simp [onMatch, ClangMoveTool.run, hR], by simp, by simp⟩
      · exact ⟨[Template], by simp [onMatch, ClangMoveTool.run, hR, hT],
          by simp [Binding.movesDecl], by simp [Node.Decls, hT]⟩
    case class_method =>
      cases hI : N.isInlined
      · exact ⟨[N.D], by
            simp [onMatch, ClassDeclarationMatch.run, ClassDeclarationMatch.MatchClassMethod,
              ClangMoveTool.addRemovedDecl, hI, hT],
          by simp [Binding.movesDecl], by simp [Node.Decls]⟩
      · exact ⟨[], by
            simp [onMatch, ClassDeclarationMatch.run, ClassDeclarationMatch.MatchClassMethod, hI],
          by simp, by simp⟩
    case moved_class =>
      exact ⟨[Template], by
          simp [onMatch, ClassDeclarationMatch.run, ClassDeclarationMatch.MatchClassDeclaration,
            ClangMoveTool.addRemovedDecl, hT],
        by simp [Binding.movesDecl], by simp [Node.Decls, hT]⟩
    case function =>
      exact ⟨[Template], by
          simp [onMatch, FunctionDeclarationMatch.run, ClangMoveTool.addRemovedDecl, hT],
        by simp [Binding.movesDecl], by simp [Node.Decls, hT]⟩
    all_goals
      exact ⟨[N.D], by
          simp [onMatch, ClangMoveTool.run, ClassDeclarationMatch.run,
            ClassDeclarationMatch.MatchClassStaticVariable, ClangMoveTool.addRemovedDecl],
        by simp [Binding.movesDecl], by simp [Node.Decls]⟩

theorem foldl_onMatch_MovedDecls (N : Node) (L : List (Binding × (Node → Bool)))
    (T : ClangMoveTool) :
    ∃ l, (L.foldl (fun T M => onMatch T ⟨M.1, N⟩) T).MovedDecls = T.MovedDecls ++ l
      ∧ l.length ≤ (L.filter (fun M => M.1.movesDecl)).length
      ∧ ∀ x ∈ l, x ∈ N.Decls := by
  induction L generalizing T with
  | nil => exact ⟨[], by simp, by simp, by simp⟩
  | cons M L ih =>
    obtain ⟨l1, h1, hlen1, hmem1⟩ := onMatch_MovedDecls T M.1 N
    obtain ⟨l2, h2, hlen2, hmem2⟩ := ih (onMatch T ⟨M.1, N⟩)
    refine ⟨l1 ++ l2, ?_, ?_, ?_⟩
    · simp only [List.foldl_cons]
      rw [h2, h1, List.append_assoc]
    · simp only [List.length_append, List.filter_cons]
      cases hM : M.1.movesDecl
      · simp [hM] at hlen1 ⊢
        simpa [hlen1] using hlen2
      · simp [hM] at hlen1 ⊢
        omega
    · intro x hx
      rcases List.mem_append.mp hx with hx | hx
      · exact hmem1 x hx
      · exact hmem2 x hx

theorem matchNode_MovedDecls (E : Env) (Context : ClangMoveContext) (T : ClangMoveTool)
    (N : Node) (h : helperAlsoRequested E Context N = false) :
    ∃ l, (matchNode (registerMatchers E Context) T N).MovedDecls = T.MovedDecls ++ l
      ∧ l.length ≤ 1 ∧ ∀ x ∈ l, x ∈ N.Decls := by
  obtain ⟨l, h1, hlen, hmem⟩ :=
    foldl_onMatch_MovedDecls N ((registerMatchers E Context).filter (fun M => M.2 N)) T
  refine ⟨l, h1, ?_, hmem⟩
  rw [List.filter_filter] at hlen
  have hOne := registerMatchers_one_mover E Context N h
  have hEq : (registerMatchers E Context).filter (fun M => M.1.movesDecl && M.2 N)
      = (registerMatchers E Context).filter (fun M => M.2 N && M.1.movesDecl) := by
    congr 1
    funext M
    exact Bool.and_comm _ _
  rw [hEq] at hlen
  omega

theorem foldl_onMatch_mem (N : Node) (L : List (Binding × (Node → Bool))) (T : ClangMoveTool)
    (x : Decl) (h : x ∈ T.MovedDecls) :
    x ∈ (L.foldl (fun T M => onMatch T ⟨M.1, N⟩) T).MovedDecls := by
  obtain ⟨l, hl, _, _⟩ := foldl_onMatch_MovedDecls N L T
  rw [hl]
  exact List.mem_append_left _ h

theorem foldl_onMatch_static (N : Node) (L : List (Binding × (Node → Bool)))
    (T : ClangMoveTool) (P : Node → Bool) (h : (Binding.static_decls, P) ∈ L) :
    N.D ∈ (L.foldl (fun T M => onMatch T ⟨M.1, N⟩) T).MovedDecls := by
  induction L generalizing T with
  | nil => simp at h
  | cons M L ih =>
    simp only [List.foldl_cons]
    rcases List.mem_cons.mp h with h | h
    · apply foldl_onMatch_mem
      rw [← h]
      simp [onMatch, ClangMoveTool.run]
    · exact ih _ h

/-- C14. The static function `helper` defined in the old implementation file
`helper.cc` is requested by name.  Its definition is delivered once; both the
`static_decls` matcher (which does not look at the name of the declaration)
and the `function` matcher accept it, so it is recorded once for removal and
twice in the moved list, and the text inserted in the new implementation file
holds the definition twice, while the old implementation file loses it
once. -/
theorem processStream_MovedDecls_duplicate :
    helperContext.Spec.Names = ["helper"]
      ∧ helperContext.Spec.OldCC = "helper.cc"
      ∧ exampleSM.Buffers "helper.cc"
          = some ("static int helper() \x7b return 0; \x7d\n"
              ++ "int g() \x7b return helper(); \x7d\n")
      ∧ helperEvents = [Event.Declaration nodeABY, Event.Declaration nodeHelper]
      ∧ ((registerMatchers exampleEnv helperContext).filter
            (fun M => M.2 nodeHelper)).map (fun M => M.1)
          = [Binding.static_decls, Binding.function]
      ∧ (processStream exampleEnv helperContext helperEvents).RemovedDecls = [declHelper]
      ∧ (processStream exampleEnv helperContext helperEvents).MovedDecls
          = [declHelper, declHelper]
      ∧ ¬ (processStream exampleEnv helperContext helperEvents).MovedDecls.Nodup
      ∧ endAction (processStream exampleEnv helperContext helperEvents) = EndAction.MoveDecls
      ∧ (runTool exampleEnv helperContext helperEvents).Context.FileToReplacements.find
            "helper.cc"
          = [⟨"helper.cc", 0, 34, ""⟩]
      ∧ (runTool exampleEnv helperContext helperEvents).Context.FileToReplacements.find "new.cc"
          = [⟨"new.cc", 0, 0,
              "#include \"new.h\"\n\n\nstatic int helper() \x7b return 0; \x7d\n\n"
                ++ "static int helper() \x7b return 0; \x7d\n"⟩] := by
  decide

end ClangMove
